import Mathlib

/-!
# Verification of the bitter-turnips world simulation

This file embeds the simulation core of `src/bitter.rs` (the `World` type,
its event handlers, the LIFO event dispatcher and the tick scheduler) as
executable Lean definitions, and proves or refutes the specification claims
about it.

Modelling conventions:
* `slotmap::SlotMap` is used by the source only to allocate fresh generational
  keys (`entities.insert(GameEntity)`); we model a key as a `ℕ` drawn from the
  monotone counter `next_key`.  No key is ever reused in the traces the
  simulation produces, so the generation component is not needed.
* `slotmap::SecondaryMap` is modelled as an association list ordered by key.
  Keys are allocated in increasing order and insertion appends, so list order
  coincides with the slot order in which `SecondaryMap` iterates.
* Indexing a `SecondaryMap` with an absent key panics in Rust; the panicking
  reads are modelled with default values (`getD`) and the panicking in-place
  updates with `mapAt`, which leaves the map unchanged when the key is absent.
  All such accesses in the source happen at keys that are present in every
  state the program reaches, so the defaults are never exercised by the
  theorems below except where explicitly noted.
* `rand::thread_rng()` / `rand::random()` are thread-local globals in the
  source.  They are modelled by an explicit entropy stream `g : ℕ → ℕ`
  threaded through execution in the order the source draws from it;
  `gen_range(0, n)` consumes the head of the stream reduced `% n`.
-/

namespace Bitter

/-- `pub const GRID_WIDTH: u8 = 8`. -/
def GRID_WIDTH : ℕ := 8

/-- `pub const GRID_HEIGHT: u8 = 8`. -/
def GRID_HEIGHT : ℕ := 8

/-- `enum Direction { Up, Down, Left, Right }`. -/
inductive Direction : Type where
  | Up : Direction
  | Down : Direction
  | Left : Direction
  | Right : Direction
deriving DecidableEq, Repr

/-- `const CARDINAL_DIRECTIONS: [Direction; 4]`. -/
def CARDINAL_DIRECTIONS : List Direction :=
  [Direction.Up, Direction.Down, Direction.Left, Direction.Right]

/-- `pub type Coords = (u8, u8)`. -/
abbrev Coords : Type := ℕ × ℕ

/-- Entropy stream standing in for the thread-local RNG: an infinite supply
of naturals, consumed from the front. -/
abbrev RNG : Type := ℕ → ℕ

/-- Drop the first value of the stream. -/
def RNG.shift (g : RNG) : RNG := fun n => g (n + 1)

/-- `rng.gen_range(0, n)`: a uniform draw in `[0, n)`, modelled as the next
stream value reduced `% n`, together with the advanced stream. -/
def genRange (g : RNG) (n : ℕ) : ℕ × RNG := (g 0 % n, g.shift)

/-- `impl Distribution<Direction> for Standard`: `gen_range(0, 4)` mapped
`0 ↦ Up, 1 ↦ Down, 2 ↦ Left, _ ↦ Right`. -/
def directionOfDraw (v : ℕ) : Direction :=
  match v with
  | 0 => Direction.Up
  | 1 => Direction.Down
  | 2 => Direction.Left
  | _ => Direction.Right

/-- `slotmap::SecondaryMap<EntityKey, α>` as an association list (see the
module docstring for why list order matches slot iteration order). -/
abbrev SMap (α : Type) : Type := List (ℕ × α)

namespace SMap

variable {α : Type}

/-- Lookup, `None` when the key is absent. -/
def get? : SMap α → ℕ → Option α
  | [], _ => none
  | p :: t, k => if p.1 = k then some p.2 else get? t k

/-- Lookup with a default; stands for the panicking `map[key]` read. -/
def getD (m : SMap α) (k : ℕ) (d : α) : α := (m.get? k).getD d

/-- Key membership. -/
def contains (m : SMap α) (k : ℕ) : Bool := m.any (fun p => decide (p.1 = k))

/-- `SecondaryMap::insert`: replace in place when present, append otherwise. -/
def insert (m : SMap α) (k : ℕ) (v : α) : SMap α :=
  if m.contains k then m.map (fun p => if p.1 = k then (k, v) else p)
  else m ++ [(k, v)]

/-- In-place update `map[key] = f map[key]`; no-op when the key is absent
(the source panics there, see module docstring). -/
def mapAt (m : SMap α) (k : ℕ) (f : α → α) : SMap α :=
  m.map (fun p => if p.1 = k then (p.1, f p.2) else p)

/-- `SecondaryMap::remove`. -/
def remove (m : SMap α) (k : ℕ) : SMap α :=
  m.filter (fun p => decide (p.1 ≠ k))

/-- `SecondaryMap::keys`, in iteration order. -/
def keys (m : SMap α) : List ℕ := m.map Prod.fst

/-- `SecondaryMap::values`, in iteration order. -/
def values (m : SMap α) : List α := m.map Prod.snd

end SMap

/-- `Villager` record from `entities.rs` (that file is not among the given
sources).  Modelled from the spec: §3 gives a villager the attributes `id`
and `last_ate_tick`; the `key` field is visible in `bitter.rs` usage. -/
structure Villager : Type where
  id : ℕ
  key : ℕ
  last_ate : ℕ
deriving DecidableEq, Repr

/-- Modelled from the spec: `Villager::new(id, key, ticks)` records the
creation tick as `last_ate` (§8 calls the freshly seeded villager
"recently fed"). -/
def Villager.new (id key ticks : ℕ) : Villager := ⟨id, key, ticks⟩

/-- `Farm` record from `entities.rs` (not among the given sources).
Modelled from the spec: §3 gives a farm the attributes `id` and
`last_grew_tick`; the `key` field is visible in `bitter.rs` usage. -/
structure Farm : Type where
  id : ℕ
  key : ℕ
  last_grew : ℕ
deriving DecidableEq, Repr

/-- Modelled from the spec: `Farm::new(id, key, x, y, ticks)` records the
creation tick as `last_grew` (§4.3: `FarmAdded` creates a farm with
`last_grew_tick = now`).  The coordinates go into the `coords` map, not the
farm record (§3 lists only `id` and `last_grew_tick`). -/
def Farm.new (id key _x _y ticks : ℕ) : Farm := ⟨id, key, ticks⟩

/-- `DeathMarker { key }`, the shape visible at `bitter.rs` line 194. -/
structure DeathMarker : Type where
  key : ℕ
deriving DecidableEq, Repr

/-- `enum WorldEvent` from `events.rs` (not among the given sources); the
twelve variants and their payloads are fully determined by the `match` in
`World::process_events`. -/
inductive WorldEvent : Type where
  | VillagerMoved (key : ℕ) (dir : Direction)
  | VillagerAte (key : ℕ)
  | VillagerHungered (key : ℕ)
  | FarmGrew (key : ℕ)
  | FarmHarvested (key : ℕ)
  | VillagerDied (key : ℕ)
  | FarmAdded (coords : Coords)
  | VillagerHarvested (key : ℕ)
  | GravesCleared
  | FarmsCultivated
  | VillagersFarmed
  | VillagersMoved
deriving DecidableEq, Repr

/-- `fn coords_after_move(coords: Coords, dir: Direction) -> Coords`. -/
def coords_after_move (c : Coords) (dir : Direction) : Coords :=
  match dir with
  | Direction.Up => if 1 < c.2 then (c.1, c.2 - 1) else c
  | Direction.Down => if c.2 < GRID_HEIGHT - 2 then (c.1, c.2 + 1) else c
  | Direction.Left => if 1 < c.1 then (c.1 - 1, c.2) else c
  | Direction.Right => if c.1 < GRID_WIDTH - 2 then (c.1 + 1, c.2) else c

/-- `fn can_move_in_dir(coords: Coords, dir: Direction) -> bool`. -/
def can_move_in_dir (c : Coords) (dir : Direction) : Bool :=
  match dir with
  | Direction.Up => decide (1 < c.2)
  | Direction.Down => decide (c.2 < GRID_HEIGHT - 2)
  | Direction.Left => decide (1 < c.1)
  | Direction.Right => decide (c.1 < GRID_WIDTH - 2)

/-- `pub struct World`.  `events` is the LIFO stack with the top at the head
(Rust pushes/pops at the end of the `Vec`; reversing gives a head-top list).
`next_key` is the slot allocator of `entities: SlotMap<EntityKey, GameEntity>`. -/
structure World : Type where
  events : List WorldEvent
  next_key : ℕ
  coords : SMap Coords
  last_id : ℕ
  death_markers : SMap DeathMarker
  farms : SMap Farm
  ticks : ℕ
  satiation : SMap ℕ
  villagers : SMap Villager
deriving DecidableEq, Repr

namespace World

/-- A dummy farm for the never-exercised default of panicking reads. -/
def dummyFarm : Farm := ⟨0, 0, 0⟩

/-- A dummy villager for the never-exercised default of panicking reads. -/
def dummyVillager : Villager := ⟨0, 0, 0⟩

/-- `fn villager_moved`. -/
def villager_moved (w : World) (key : ℕ) (dir : Direction) : World :=
  { w with coords := w.coords.mapAt key (fun c => coords_after_move c dir) }

/-- `fn villager_ate`. -/
def villager_ate (w : World) (key : ℕ) : World :=
  { w with
    satiation := w.satiation.mapAt key (fun s => s + 1),
    villagers := w.villagers.mapAt key (fun v => { v with last_ate := w.ticks }) }

/-- `fn villager_hungered`; returns the world and the produced events. -/
def villager_hungered (w : World) (key : ℕ) : World × List WorldEvent :=
  if 0 < w.satiation.getD key 0 then
    ({ w with
       satiation := w.satiation.mapAt key (fun s => s - 1),
       villagers := w.villagers.mapAt key (fun v => { v with last_ate := w.ticks }) },
     [])
  else
    (w, [WorldEvent.VillagerDied key])

/-- `fn farm_grew`; returns the world, the produced events and the advanced
entropy stream. -/
def farm_grew (w : World) (key : ℕ) (g : RNG) : World × List WorldEvent × RNG :=
  let farm := w.farms.getD key dummyFarm
  if w.ticks - farm.last_grew < 20 then (w, [], g)
  else
    let w1 := { w with farms := w.farms.mapAt key (fun f => { f with last_grew := w.ticks }) }
    let farm_coords := w1.coords.getD key (0, 0)
    let possible0 :=
      (CARDINAL_DIRECTIONS.filter (fun d => can_move_in_dir farm_coords d)).map
        (fun d => coords_after_move farm_coords d)
    let all_possible_coords :=
      w1.farms.keys.foldl
        (fun acc fk => acc.filter (fun c => !(c == w1.coords.getD fk (0, 0)))) possible0
    if all_possible_coords.length == 0 then (w1, [], g)
    else
      let drawn := genRange g all_possible_coords.length
      (w1, [WorldEvent.FarmAdded (all_possible_coords.getD drawn.1 (0, 0))], drawn.2)

/-- `fn farm_harvested`.  Note: the `coords` entry of the removed farm is not
removed. -/
def farm_harvested (w : World) (key : ℕ) : World :=
  { w with farms := w.farms.remove key }

/-- `fn villager_died`.  Note: the villager's `coords` entry is not removed;
a fresh key is allocated for the death marker. -/
def villager_died (w : World) (vk : ℕ) : World :=
  let c := w.coords.getD vk (0, 0)
  let dmk := w.next_key
  { w with
    next_key := dmk + 1,
    death_markers := w.death_markers.insert dmk ⟨dmk⟩,
    coords := w.coords.insert dmk c,
    villagers := w.villagers.remove vk }

/-- `fn farm_added`. -/
def farm_added (w : World) (c : Coords) : World :=
  let new_id := w.last_id + 1
  let key := w.next_key
  let farm := Farm.new new_id key c.1 c.2 w.ticks
  { w with
    next_key := key + 1,
    last_id := new_id,
    farms := w.farms.insert key farm,
    coords := w.coords.insert key c }

/-- `fn villager_harvested`; returns the world (unchanged), the produced
events and the advanced entropy stream. -/
def villager_harvested (w : World) (vk : ℕ) (g : RNG) : World × List WorldEvent × RNG :=
  let villager := w.villagers.getD vk dummyVillager
  let satiation := w.satiation.getD vk 0
  let unharvested_farms := w.farms.values
  let time_since_last_ate := w.ticks - villager.last_ate
  let need_to_eat := decide (satiation < 5) && decide (time_since_last_ate < 40)
  let food_left_to_eat := decide (0 < unharvested_farms.length)
  if need_to_eat then
    if food_left_to_eat then
      let drawn := genRange g unharvested_farms.length
      let farm := unharvested_farms.getD drawn.1 dummyFarm
      (w, [WorldEvent.FarmHarvested farm.key, WorldEvent.VillagerAte vk], drawn.2)
    else
      (w, [WorldEvent.VillagerHungered vk], g)
  else
    (w, [], g)

/-- `fn graves_cleared`.  Note: the markers' `coords` entries are not removed. -/
def graves_cleared (w : World) : World :=
  { w with death_markers := [] }

/-- `fn farms_cultivated`: one `FarmGrew` per live farm, in iteration order. -/
def farms_cultivated (w : World) : List WorldEvent :=
  w.farms.values.map (fun f => WorldEvent.FarmGrew f.key)

/-- `fn villagers_farmed`: one `VillagerHarvested` per live villager. -/
def villagers_farmed (w : World) : List WorldEvent :=
  w.villagers.keys.map (fun k => WorldEvent.VillagerHarvested k)

/-- One iteration of the loop in `villagers_moved`: draw a direction
(`rand::random::<Direction>()`) and push a `VillagerMoved` event. -/
def movedStep (acc : List WorldEvent × RNG) (k : ℕ) : List WorldEvent × RNG :=
  let drawn := genRange acc.2 4
  (acc.1 ++ [WorldEvent.VillagerMoved k (directionOfDraw drawn.1)], drawn.2)

/-- `fn villagers_moved`: one `VillagerMoved(key, random direction)` per live
villager; the direction draws are consumed in iteration order. -/
def villagers_moved (w : World) (g : RNG) : List WorldEvent × RNG :=
  w.villagers.keys.foldl movedStep ([], g)

/-- One dispatch of the `match` in `process_events`: run the handler of one
event, returning the new world, the handler's `new_events` (in the order the
handler pushed them) and the advanced entropy stream. -/
def handle (w : World) (e : WorldEvent) (g : RNG) : World × List WorldEvent × RNG :=
  match e with
  | WorldEvent.VillagerMoved key dir => (w.villager_moved key dir, [], g)
  | WorldEvent.VillagerAte key => (w.villager_ate key, [], g)
  | WorldEvent.VillagerHungered key =>
      let r := w.villager_hungered key
      (r.1, r.2, g)
  | WorldEvent.FarmGrew key => w.farm_grew key g
  | WorldEvent.FarmHarvested key => (w.farm_harvested key, [], g)
  | WorldEvent.VillagerDied vk => (w.villager_died vk, [], g)
  | WorldEvent.FarmAdded c => (w.farm_added c, [], g)
  | WorldEvent.VillagerHarvested vk => w.villager_harvested vk g
  | WorldEvent.GravesCleared => (w.graves_cleared, [], g)
  | WorldEvent.FarmsCultivated => (w, w.farms_cultivated, g)
  | WorldEvent.VillagersFarmed => (w, w.villagers_farmed, g)
  | WorldEvent.VillagersMoved =>
      let r := w.villagers_moved g
      (w, r.1, r.2)

/-- The drain loop of `process_events`, with explicit fuel: pop the top
event, run its handler, push the handler's events (so the last-pushed event
is the next one popped — `self.events.extend(new_events)` on a `Vec` stack
becomes `reverse ++` on a head-top list), repeat.  The source loops until
the stack is empty; `advance_world` below supplies fuel that provably
suffices for that. -/
def processFuel : ℕ → World → RNG → World × RNG
  | 0, w, g => (w, g)
  | n + 1, w, g =>
    match w.events with
    | [] => (w, g)
    | e :: rest =>
      let r := handle { w with events := rest } e g
      processFuel n { r.1 with events := r.2.1.reverse ++ r.1.events } r.2.2

/-- Fuel that suffices to drain the cascade started by `advance_world`
(proved in `advance_world_quiesces` below): the canonical batch costs at
most `4 + 2·|farms| + 4·|villagers|` dispatches. -/
def fuelBound (w : World) : ℕ := 8 + 2 * w.farms.length + 4 * w.villagers.length

/-- `fn advance_world`: push `VillagersMoved`, `VillagersFarmed`,
`FarmsCultivated`, `GravesCleared` in that order onto the LIFO stack (so
`GravesCleared` ends on top), then drain. -/
def advance_world (w : World) (g : RNG) : World × RNG :=
  let w1 := { w with events :=
    WorldEvent.GravesCleared :: WorldEvent.FarmsCultivated ::
    WorldEvent.VillagersFarmed :: WorldEvent.VillagersMoved :: w.events }
  processFuel (fuelBound w) w1 g

/-- `pub fn tick`. -/
def tick (w : World) (g : RNG) : World × RNG :=
  let w1 := { w with ticks := w.ticks + 1 }
  if (w1.ticks + 1) % 20 == 0 then advance_world w1 g else (w1, g)

/-- `pub fn add_villager_at`; returns the new world and the returned id. -/
def add_villager_at (w : World) (x y : ℕ) : World × ℕ :=
  let new_id := w.last_id + 1
  let key := w.next_key
  let villager := Villager.new new_id key w.ticks
  ({ w with
     next_key := key + 1,
     villagers := w.villagers.insert key villager,
     coords := w.coords.insert key (x, y),
     satiation := w.satiation.insert key 1,
     last_id := new_id },
   new_id)

/-- `pub fn add_farm_at`; returns the new world and the returned id. -/
def add_farm_at (w : World) (x y : ℕ) : World × ℕ :=
  let new_id := w.last_id + 1
  let key := w.next_key
  let farm := Farm.new new_id key x y w.ticks
  ({ w with
     next_key := key + 1,
     last_id := new_id,
     farms := w.farms.insert key farm,
     coords := w.coords.insert key (x, y) },
   new_id)

/-- The empty world literal inside `World::new`. -/
def empty : World :=
  { events := [], next_key := 0, coords := [], last_id := 0,
    death_markers := [], farms := [], ticks := 0, satiation := [],
    villagers := [] }

/-- `pub fn new`: one villager at (4,4), three farms at (5,4), (5,5), (5,6). -/
def new : World :=
  let w1 := (empty.add_villager_at 4 4).1
  let w2 := (w1.add_farm_at 5 4).1
  let w3 := (w2.add_farm_at 5 5).1
  (w3.add_farm_at 5 6).1

end World

/-- Run `tick` the given number of times, threading the entropy stream. -/
def tickN : ℕ → World → RNG → World × RNG
  | 0, w, g => (w, g)
  | n + 1, w, g =>
    let r := World.tick w g
    tickN n r.1 r.2

/-- Worlds reachable through the public surface of §6: `World::new`,
`tick`, `add_villager_at`, `add_farm_at`. -/
inductive Reachable : World → Prop where
  | new : Reachable World.new
  | tick (w : World) (g : RNG) : Reachable w → Reachable (World.tick w g).1
  | add_villager_at (w : World) (x y : ℕ) :
      Reachable w → Reachable (w.add_villager_at x y).1
  | add_farm_at (w : World) (x y : ℕ) :
      Reachable w → Reachable (w.add_farm_at x y).1

/-- Replace the event stack of a world (used to relate the dispatcher,
which mutates the stack, to the handlers, which never read it). -/
def setEvents (w : World) (E : List WorldEvent) : World := { w with events := E }

/-- Net effect of popping one `FarmGrew` event and, when the handler pushes
a `FarmAdded`, immediately popping that as well (the LIFO stack places it on
top).  Built from the source handlers `farm_grew` and `farm_added`. -/
def growStep (p : World × RNG) (k : ℕ) : World × RNG :=
  let r := p.1.farm_grew k p.2
  match r.2.1 with
  | [WorldEvent.FarmAdded c] => (r.1.farm_added c, r.2.2)
  | _ => (r.1, r.2.2)

/-- Net effect of popping one `VillagerHarvested` event together with the
fine-grained events it pushes, which the LIFO stack runs immediately:
`VillagerAte` then `FarmHarvested`, or `VillagerHungered` possibly followed
by `VillagerDied`.  Built from the source handlers. -/
def harvestStep (p : World × RNG) (vk : ℕ) : World × RNG :=
  let r := p.1.villager_harvested vk p.2
  match r.2.1 with
  | [WorldEvent.FarmHarvested fk, WorldEvent.VillagerAte k] =>
      ((r.1.villager_ate k).farm_harvested fk, r.2.2)
  | [WorldEvent.VillagerHungered k] =>
      let r2 := r.1.villager_hungered k
      match r2.2 with
      | [WorldEvent.VillagerDied k2] => (r2.1.villager_died k2, r.2.2)
      | _ => (r2.1, r.2.2)
  | _ => (r.1, r.2.2)

/-- Apply one already-drawn `VillagerMoved` event. -/
def moveApply (w : World) (e : WorldEvent) : World :=
  match e with
  | WorldEvent.VillagerMoved k d => w.villager_moved k d
  | _ => w

/-- Grave-clearing phase of a cascade (runs first: `GravesCleared` is pushed
last, so the LIFO stack pops it first). -/
def gravesPhase (w : World) : World := w.graves_cleared

/-- Farm-growth phase of a cascade: `FarmsCultivated` fans out one `FarmGrew`
per farm in iteration order; the LIFO stack then processes them in reverse
iteration order, each immediately followed by its `FarmAdded` if any. -/
def growthPhase (w : World) (g : RNG) : World × RNG :=
  ((w.farms.values.map Farm.key).reverse).foldl growStep (w, g)

/-- Harvest phase of a cascade: `VillagersFarmed` fans out one
`VillagerHarvested` per villager in iteration order; the LIFO stack then
processes them in reverse iteration order. -/
def harvestPhase (w : World) (g : RNG) : World × RNG :=
  (w.villagers.keys.reverse).foldl harvestStep (w, g)

/-- Movement phase of a cascade: `VillagersMoved` draws one direction per
villager in iteration order, then the LIFO stack applies the moves in
reverse iteration order. -/
def movePhase (w : World) (g : RNG) : World × RNG :=
  let r := w.villagers_moved g
  (r.1.reverse.foldl moveApply w, r.2)

/-- The whole cascade of one interval boundary as the spec §4.4 describes
it: graves cleared first, then all farm growth, then all harvesting, then
all villager movement.  `advance_world_eq_cascade` below proves that the
LIFO dispatcher started on the canonical batch computes exactly this. -/
def cascade (w : World) (g : RNG) : World × RNG :=
  let p1 := growthPhase (gravesPhase w) g
  let p2 := harvestPhase p1.1 p1.2
  movePhase p2.1 p2.2

/-- Rank of an event kind: every handler only enqueues events of strictly
smaller rank, which is the spec §4.2 reason the cascade cannot expand
forever. -/
def rank : WorldEvent → ℕ
  | WorldEvent.VillagerMoved _ _ => 0
  | WorldEvent.VillagerAte _ => 0
  | WorldEvent.VillagerHungered _ => 1
  | WorldEvent.FarmGrew _ => 1
  | WorldEvent.FarmHarvested _ => 0
  | WorldEvent.VillagerDied _ => 0
  | WorldEvent.FarmAdded _ => 0
  | WorldEvent.VillagerHarvested _ => 2
  | WorldEvent.GravesCleared => 1
  | WorldEvent.FarmsCultivated => 2
  | WorldEvent.VillagersFarmed => 3
  | WorldEvent.VillagersMoved => 1

/-- The interior playfield `[1, GRID_WIDTH-2] × [1, GRID_HEIGHT-2]` of
spec §4.3. -/
def interior (c : Coords) : Prop :=
  1 ≤ c.1 ∧ c.1 ≤ GRID_WIDTH - 2 ∧ 1 ≤ c.2 ∧ c.2 ≤ GRID_HEIGHT - 2

instance (c : Coords) : Decidable (interior c) := by
  unfold interior; infer_instance

/-- `b` is exactly one cell away from `a` (orthogonally). -/
def adjacentCell (a b : Coords) : Prop :=
  (a.1 = b.1 ∧ (a.2 = b.2 + 1 ∨ a.2 + 1 = b.2)) ∨
  (a.2 = b.2 ∧ (a.1 = b.1 + 1 ∨ a.1 + 1 = b.1))

instance (a b : Coords) : Decidable (adjacentCell a b) := by
  unfold adjacentCell; infer_instance

/-- The spec §4.3 eating condition, written from the spec's words:
`need_to_eat = satiation < 5 && (now - last_ate_tick) < 40`. -/
def need_to_eat_spec (satiation now last_ate : ℕ) : Prop :=
  satiation < 5 ∧ now - last_ate < 40

/-- The spec §3 coordinate range, written from the spec's words:
`(x: 0..GRID_WIDTH, y: 0..GRID_HEIGHT)`. -/
def in_grid_spec (c : Coords) : Prop :=
  c.1 < GRID_WIDTH ∧ c.2 < GRID_HEIGHT

instance (c : Coords) : Decidable (in_grid_spec c) := by
  unfold in_grid_spec; infer_instance

/-- The candidate-cell computation inside `farm_grew`, factored out: the
in-bounds orthogonal neighbors of `fc`, minus every cell occupied by a farm
key of `ks` according to the coordinate map `cm`.  `farm_grew_eq` below
proves `farm_grew` draws from exactly this list. -/
def growthCandidates (fc : Coords) (ks : List ℕ) (cm : SMap Coords) : List Coords :=
  ks.foldl
    (fun acc fk => acc.filter (fun c => !(c == SMap.getD cm fk (0, 0))))
    ((CARDINAL_DIRECTIONS.filter (fun d => can_move_in_dir fc d)).map
      (fun d => coords_after_move fc d))

/-- A villager that `villager_harvested` can never again act on: satiation
at least 5, or at least 40 ticks since it last ate (the two ways
`need_to_eat` is false). -/
def SafeVillager (w : World) (k : ℕ) : Prop :=
  5 ≤ w.satiation.getD k 0 ∨
    40 ≤ w.ticks - (w.villagers.getD k World.dummyVillager).last_ate

instance (w : World) (k : ℕ) : Decidable (SafeVillager w k) := by
  unfold SafeVillager; infer_instance

/-- Coordinates of the live farms, in iteration order. -/
def farmCoords (w : World) : List Coords :=
  w.farms.keys.map (fun k => w.coords.getD k (0, 0))

/-- Spec §3 invariant: no two live farms occupy the same coordinate. -/
def FarmsDistinct (w : World) : Prop := (farmCoords w).Nodup

/-- Spec §3 invariant under test in C3: every live entity key has a
coordinate entry. -/
def LiveHasCoords (w : World) : Prop :=
  ∀ k : ℕ,
    (k ∈ w.villagers.keys ∨ k ∈ w.farms.keys ∨ k ∈ w.death_markers.keys) →
    k ∈ w.coords.keys

/-- Structural well-formedness maintained by the slot allocator: every key
in any map was allocated below `next_key`, key lists have no duplicates,
and no key is simultaneously a farm key and a villager key. -/
def WF (w : World) : Prop :=
  (∀ k ∈ w.coords.keys, k < w.next_key) ∧
  (∀ k ∈ w.farms.keys, k < w.next_key) ∧
  (∀ k ∈ w.villagers.keys, k < w.next_key) ∧
  (∀ k ∈ w.death_markers.keys, k < w.next_key) ∧
  w.coords.keys.Nodup ∧ w.farms.keys.Nodup ∧ w.villagers.keys.Nodup ∧
  (∀ k ∈ w.farms.keys, k ∉ w.villagers.keys)

instance (w : World) : Decidable (FarmsDistinct w) := by
  unfold FarmsDistinct; infer_instance

instance (w : World) : Decidable (WF w) := by
  unfold WF; infer_instance

/-- The all-zero entropy stream (a fixed injected draw sequence). -/
def zeros : RNG := fun _ => 0

/-- The all-one entropy stream (a different injected draw sequence). -/
def ones : RNG := fun _ => 1

/-- Add `n` villagers at (2,2) through the public `add_villager_at`. -/
def addVillagers : ℕ → World → World
  | 0, w => w
  | n + 1, w => addVillagers n (w.add_villager_at 2 2).1

/-- A reachable world with ten villagers and the three initial farms: too
many mouths, so some villagers' satiation is decremented to zero. -/
def crowdedWorld : World := addVillagers 9 World.new

/-- A reachable world with a villager placed on the border cell (4,0). -/
def borderWorld : World := (World.new.add_villager_at 4 0).1

/-- The world of `World::new` with the tick counter at 19, written as a
record literal (proved equal to `{ World.new with ticks := 19 }` below):
the state on which the first cascade runs. -/
def c1Start : World :=
  { events := [], next_key := 4,
    coords := [(0, (4, 4)), (1, (5, 4)), (2, (5, 5)), (3, (5, 6))],
    last_id := 4, death_markers := [],
    farms := [(1, ⟨2, 1, 0⟩), (2, ⟨3, 2, 0⟩), (3, ⟨4, 3, 0⟩)],
    ticks := 19, satiation := [(0, 1)],
    villagers := [(0, ⟨1, 0, 0⟩)] }

/-- The scenario world after the harvest phase of the first cascade, as a
function of the drawn farm index `i`. -/
def c1AfterHarvest (i : ℕ) : World :=
  (c1Start.villager_ate 0).farm_harvested
    ((c1Start.farms.values.getD i World.dummyFarm).key)

/-- The scenario world at quiescence of the first cascade, as a function of
the drawn farm index `i` and the drawn direction value `j`. -/
def c1Final (i j : ℕ) : World :=
  (c1AfterHarvest i).villager_moved 0 (directionOfDraw j)

/-! ## Association-list lemmas -/

theorem SMap.contains_iff_mem_keys {α : Type} (m : SMap α) (k : ℕ) :
    m.contains k = true ↔ k ∈ m.keys := by
  simp only [SMap.contains, SMap.keys, List.any_eq_true, List.mem_map,
    decide_eq_true_eq]

theorem SMap.keys_mapAt {α : Type} (m : SMap α) (k : ℕ) (f : α → α) :
    (m.mapAt k f).keys = m.keys := by
  unfold SMap.mapAt SMap.keys
  rw [List.map_map]
  apply List.map_congr_left
  intro p _
  simp only [Function.comp_apply]
  split <;> rfl

theorem SMap.get?_nil {α : Type} (x : ℕ) : SMap.get? ([] : SMap α) x = none := rfl

theorem SMap.get?_cons {α : Type} (p : ℕ × α) (t : SMap α) (x : ℕ) :
    SMap.get? (p :: t) x = if p.1 = x then some p.2 else SMap.get? t x := rfl

theorem SMap.keys_remove {α : Type} (m : SMap α) (k : ℕ) :
    (m.remove k).keys = m.keys.filter (fun x => decide (x ≠ k)) := by
  induction m with
  | nil => rfl
  | cons p t ih =>
    simp only [SMap.remove, SMap.keys, List.filter_cons, List.map_cons] at ih ⊢
    by_cases h : p.1 = k
    · simp only [h, ne_eq, decide_not, decide_eq_true_eq] at ih ⊢
      simp [ih]
    · simp only [ne_eq, decide_not, decide_eq_true_eq] at ih ⊢
      simp [h, ih]

theorem SMap.not_mem_keys_remove_self {α : Type} (m : SMap α) (k : ℕ) :
    k ∉ (m.remove k).keys := by
  rw [SMap.keys_remove]
  simp [List.mem_filter]

theorem SMap.mem_keys_remove {α : Type} (m : SMap α) (x k : ℕ) :
    x ∈ (m.remove k).keys ↔ x ∈ m.keys ∧ x ≠ k := by
  rw [SMap.keys_remove]
  simp [List.mem_filter]

theorem SMap.keys_insert {α : Type} (m : SMap α) (k : ℕ) (v : α) :
    (m.insert k v).keys = if m.contains k then m.keys else m.keys ++ [k] := by
  unfold SMap.insert
  by_cases hc : m.contains k = true
  · rw [if_pos hc, if_pos hc]
    show (m.map fun p => if p.1 = k then (k, v) else p).map Prod.fst = m.keys
    unfold SMap.keys
    rw [List.map_map]
    apply List.map_congr_left
    intro p _
    simp only [Function.comp_apply]
    by_cases h : p.1 = k
    · simp [h]
    · simp [h]
  · rw [if_neg hc, if_neg hc]
    show (m ++ [(k, v)]).map Prod.fst = m.keys ++ [k]
    simp [SMap.keys]

theorem SMap.mem_keys_insert {α : Type} (m : SMap α) (k : ℕ) (v : α) (x : ℕ) :
    x ∈ (m.insert k v).keys ↔ x = k ∨ x ∈ m.keys := by
  rw [SMap.keys_insert]
  by_cases hc : m.contains k = true
  · rw [if_pos hc]
    have hk : k ∈ m.keys := (SMap.contains_iff_mem_keys m k).1 hc
    constructor
    · exact Or.inr
    · rintro (rfl | hx)
      · exact hk
      · exact hx
  · rw [if_neg hc]
    simp
    tauto

theorem SMap.get?_mapAt {α : Type} (m : SMap α) (k : ℕ) (f : α → α) (x : ℕ) :
    (m.mapAt k f).get? x = if x = k then (m.get? x).map f else m.get? x := by
  induction m with
  | nil => simp [SMap.mapAt, SMap.get?]
  | cons p t ih =>
    simp only [SMap.mapAt, List.map_cons, SMap.get?_cons] at ih ⊢
    by_cases hpk : p.1 = k
    · by_cases hpx : p.1 = x
      · have hxk : x = k := by rw [← hpx, hpk]
        simp [hpk, hpx, hxk]
      · have hkx : ¬ (k = x) := by rw [← hpk]; exact hpx
        simp [hpk, hpx, hkx, ih]
    · by_cases hpx : p.1 = x
      · have hxk : ¬ x = k := by rw [← hpx]; exact hpk
        simp [hpk, hpx, hxk]
      · simp [hpk, hpx, ih]

theorem SMap.getD_mapAt_ne {α : Type} (m : SMap α) (k : ℕ) (f : α → α) (x : ℕ) (d : α)
    (h : x ≠ k) : (m.mapAt k f).getD x d = m.getD x d := by
  unfold SMap.getD
  rw [SMap.get?_mapAt, if_neg h]

theorem SMap.getD_mapAt_self {α : Type} (m : SMap α) (k : ℕ) (f : α → α) (v d : α)
    (h : m.get? k = some v) : (m.mapAt k f).getD k d = f v := by
  unfold SMap.getD
  rw [SMap.get?_mapAt, if_pos rfl, h]
  rfl

theorem SMap.get?_replace {α : Type} (m : SMap α) (k : ℕ) (v : α) (x : ℕ) :
    SMap.get? (m.map fun p => if p.1 = k then (k, v) else p) x =
      if x = k then (if m.contains k then some v else none) else m.get? x := by
  induction m with
  | nil => simp [SMap.get?, SMap.contains]
  | cons p t ih =>
    simp only [List.map_cons, SMap.get?_cons] at ih ⊢
    by_cases hpk : p.1 = k
    · have hcon : SMap.contains (p :: t) k = true := by
        simp [SMap.contains, hpk]
      rw [hcon]
      by_cases hxk : x = k
      · simp [hpk, hxk]
      · have hkx : ¬ (k = x) := fun h => hxk h.symm
        have hpx : ¬ (p.1 = x) := by rw [hpk]; exact hkx
        simp [hpk, hkx, hxk, hpx, ih]
    · have hcon : SMap.contains (p :: t) k = SMap.contains t k := by
        simp [SMap.contains, hpk]
      rw [hcon]
      by_cases hpx : p.1 = x
      · have hxk : ¬ x = k := by rw [← hpx]; exact hpk
        simp [hpk, hpx, hxk]
      · simp [hpk, hpx, ih]

theorem SMap.get?_eq_none_of_not_contains {α : Type} (m : SMap α) (k : ℕ)
    (h : m.contains k = false) : m.get? k = none := by
  induction m with
  | nil => rfl
  | cons p t ih =>
    simp only [SMap.contains, List.any_cons, Bool.or_eq_false_iff,
      decide_eq_false_iff_not] at h
    rw [SMap.get?_cons, if_neg h.1]
    exact ih (by simp only [SMap.contains]; exact h.2)

theorem SMap.get?_append_left_none {α : Type} (m m2 : SMap α) (x : ℕ)
    (h : m.get? x = none) : SMap.get? (m ++ m2) x = m2.get? x := by
  induction m with
  | nil => rfl
  | cons p t ih =>
    rw [SMap.get?_cons] at h
    by_cases hpx : p.1 = x
    · rw [if_pos hpx] at h
      cases h
    · rw [if_neg hpx] at h
      rw [List.cons_append, SMap.get?_cons, if_neg hpx]
      exact ih h

theorem SMap.get?_insert {α : Type} (m : SMap α) (k : ℕ) (v : α) (x : ℕ) :
    (m.insert k v).get? x = if x = k then some v else m.get? x := by
  unfold SMap.insert
  by_cases hc : m.contains k = true
  · rw [if_pos hc, SMap.get?_replace, hc]
    simp
  · rw [if_neg hc]
    have hfalse : m.contains k = false := by revert hc; cases m.contains k <;> simp
    have hnone : m.get? k = none := SMap.get?_eq_none_of_not_contains m k hfalse
    by_cases hxk : x = k
    · subst hxk
      rw [SMap.get?_append_left_none m _ x hnone, if_pos rfl, SMap.get?_cons]
      simp
    · rw [if_neg hxk]
      induction m with
      | nil =>
        rw [List.nil_append, SMap.get?_cons, if_neg (fun h => hxk h.symm)]
      | cons p t ih =>
        rw [List.cons_append, SMap.get?_cons, SMap.get?_cons]
        by_cases hpx : p.1 = x
        · rw [if_pos hpx, if_pos hpx]
        · rw [if_neg hpx, if_neg hpx]
          have hc' : SMap.contains t k = false := by
            revert hfalse
            simp [SMap.contains]
          have hnone' : SMap.get? t k = none := SMap.get?_eq_none_of_not_contains t k hc'
          exact ih (by simp [hc']) hc' hnone'

theorem SMap.getD_insert_ne {α : Type} (m : SMap α) (k : ℕ) (v : α) (x : ℕ) (d : α)
    (h : x ≠ k) : (m.insert k v).getD x d = m.getD x d := by
  unfold SMap.getD
  rw [SMap.get?_insert, if_neg h]

theorem SMap.getD_insert_self {α : Type} (m : SMap α) (k : ℕ) (v : α) (d : α) :
    (m.insert k v).getD k d = v := by
  unfold SMap.getD
  rw [SMap.get?_insert, if_pos rfl]
  rfl

theorem SMap.get?_remove {α : Type} (m : SMap α) (k : ℕ) (x : ℕ) :
    (m.remove k).get? x = if x = k then none else m.get? x := by
  induction m with
  | nil => simp [SMap.remove, SMap.get?]
  | cons p t ih =>
    simp only [SMap.remove, List.filter_cons, ne_eq, decide_not] at ih ⊢
    by_cases hpk : p.1 = k
    · by_cases hxk : x = k
      · subst hxk
        simp [hpk, ih]
      · have hpx : ¬ (p.1 = x) := by rw [hpk]; exact fun h => hxk h.symm
        have hkx : ¬ (k = x) := fun h => hxk h.symm
        simp [hpk, hxk, hpx, hkx, ih, SMap.get?_cons]
    · by_cases hpx : p.1 = x
      · have hxk : ¬ x = k := by rw [← hpx]; exact hpk
        simp [hpk, hpx, hxk, SMap.get?_cons]
      · simp [hpk, hpx, SMap.get?_cons, ih]

theorem SMap.length_mapAt {α : Type} (m : SMap α) (k : ℕ) (f : α → α) :
    (m.mapAt k f).length = m.length := by
  simp [SMap.mapAt]

theorem SMap.length_remove_le {α : Type} (m : SMap α) (k : ℕ) :
    (m.remove k).length ≤ m.length :=
  List.length_filter_le _ m

/-! ## The handlers neither read nor write the event stack -/

theorem setEvents_events (w : World) (E : List WorldEvent) :
    (setEvents w E).events = E := rfl

theorem setEvents_setEvents (w : World) (E F : List WorldEvent) :
    setEvents (setEvents w E) F = setEvents w F := rfl

theorem setEvents_self (w : World) : setEvents w w.events = w := rfl

theorem setEvents_coords (w : World) (E : List WorldEvent) :
    (setEvents w E).coords = w.coords := rfl

theorem setEvents_farms (w : World) (E : List WorldEvent) :
    (setEvents w E).farms = w.farms := rfl

theorem setEvents_villagers (w : World) (E : List WorldEvent) :
    (setEvents w E).villagers = w.villagers := rfl

theorem setEvents_satiation (w : World) (E : List WorldEvent) :
    (setEvents w E).satiation = w.satiation := rfl

theorem setEvents_ticks (w : World) (E : List WorldEvent) :
    (setEvents w E).ticks = w.ticks := rfl

theorem setEvents_next_key (w : World) (E : List WorldEvent) :
    (setEvents w E).next_key = w.next_key := rfl

theorem setEvents_death_markers (w : World) (E : List WorldEvent) :
    (setEvents w E).death_markers = w.death_markers := rfl

/-- Every handler is oblivious to the current event stack: handling on a
world with a replaced stack replaces the stack of the result and changes
nothing else. -/
theorem handle_setEvents (w : World) (E : List WorldEvent) (e : WorldEvent) (g : RNG) :
    World.handle (setEvents w E) e g =
      (setEvents (World.handle w e g).1 E, (World.handle w e g).2) := by
  cases e with
  | VillagerMoved k d => rfl
  | VillagerAte k => rfl
  | VillagerHungered k =>
    simp only [World.handle, World.villager_hungered, setEvents_satiation]
    split_ifs <;> rfl
  | FarmGrew k =>
    simp only [World.handle, World.farm_grew, setEvents_farms, setEvents_ticks,
      setEvents_coords]
    split_ifs <;> rfl
  | FarmHarvested k => rfl
  | VillagerDied vk => rfl
  | FarmAdded c => rfl
  | VillagerHarvested vk =>
    simp only [World.handle, World.villager_harvested, setEvents_villagers,
      setEvents_satiation, setEvents_farms, setEvents_ticks]
    split_ifs <;> rfl
  | GravesCleared => rfl
  | FarmsCultivated => rfl
  | VillagersFarmed => rfl
  | VillagersMoved => rfl

/-- No handler modifies the event stack of the world it acts on. -/
theorem handle_events (w : World) (e : WorldEvent) (g : RNG) :
    (World.handle w e g).1.events = w.events := by
  cases e with
  | VillagerMoved k d => rfl
  | VillagerAte k => rfl
  | VillagerHungered k =>
    simp only [World.handle, World.villager_hungered]
    split_ifs <;> rfl
  | FarmGrew k =>
    simp only [World.handle, World.farm_grew]
    split_ifs <;> rfl
  | FarmHarvested k => rfl
  | VillagerDied vk => rfl
  | FarmAdded c => rfl
  | VillagerHarvested vk =>
    simp only [World.handle, World.villager_harvested]
    split_ifs <;> rfl
  | GravesCleared => rfl
  | FarmsCultivated => rfl
  | VillagersFarmed => rfl
  | VillagersMoved => rfl

/-! ## Dispatcher algebra -/

theorem processFuel_nil (n : ℕ) (w : World) (g : RNG) (h : w.events = []) :
    World.processFuel n w g = (w, g) := by
  cases n with
  | zero => rfl
  | succ n => simp [World.processFuel, h]

theorem processFuel_add (a b : ℕ) (w : World) (g : RNG) :
    World.processFuel (a + b) w g =
      World.processFuel b (World.processFuel a w g).1 (World.processFuel a w g).2 := by
  induction a generalizing w g with
  | zero =>
    simp only [Nat.zero_add]
    rfl
  | succ n ih =>
    rw [show n + 1 + b = (n + b) + 1 from by omega]
    cases hw : w.events with
    | nil =>
      rw [processFuel_nil ((n + b) + 1) w g hw, processFuel_nil (n + 1) w g hw]
      exact (processFuel_nil b w g hw).symm
    | cons e rest =>
      simp only [World.processFuel, hw]
      exact ih _ _

theorem processFuel_stable (n m : ℕ) (w : World) (g : RNG)
    (h : (World.processFuel n w g).1.events = []) (hnm : n ≤ m) :
    World.processFuel m w g = World.processFuel n w g := by
  obtain ⟨d, rfl⟩ : ∃ d, m = n + d := ⟨m - n, by omega⟩
  rw [processFuel_add]
  exact processFuel_nil d _ _ h

/-! ## Per-handler corollaries of stack obliviousness -/

theorem farm_grew_setEvents (w : World) (E : List WorldEvent) (k : ℕ) (g : RNG) :
    (setEvents w E).farm_grew k g =
      (setEvents (w.farm_grew k g).1 E, (w.farm_grew k g).2) :=
  handle_setEvents w E (WorldEvent.FarmGrew k) g

theorem villager_harvested_setEvents (w : World) (E : List WorldEvent) (vk : ℕ) (g : RNG) :
    (setEvents w E).villager_harvested vk g =
      (setEvents (w.villager_harvested vk g).1 E, (w.villager_harvested vk g).2) :=
  handle_setEvents w E (WorldEvent.VillagerHarvested vk) g

theorem villager_ate_setEvents (w : World) (E : List WorldEvent) (k : ℕ) :
    (setEvents w E).villager_ate k = setEvents (w.villager_ate k) E := rfl

theorem villager_died_setEvents (w : World) (E : List WorldEvent) (vk : ℕ) :
    (setEvents w E).villager_died vk = setEvents (w.villager_died vk) E := rfl

theorem farm_added_setEvents (w : World) (E : List WorldEvent) (c : Coords) :
    (setEvents w E).farm_added c = setEvents (w.farm_added c) E := rfl

theorem farm_harvested_setEvents (w : World) (E : List WorldEvent) (k : ℕ) :
    (setEvents w E).farm_harvested k = setEvents (w.farm_harvested k) E := rfl

theorem villager_hungered_setEvents (w : World) (E : List WorldEvent) (k : ℕ) :
    (setEvents w E).villager_hungered k =
      ((setEvents (w.villager_hungered k).1 E), (w.villager_hungered k).2) := by
  have h := handle_setEvents w E (WorldEvent.VillagerHungered k) (fun _ => 0)
  simp only [World.handle] at h
  have h1 := congrArg Prod.fst h
  have h2 := congrArg (fun p => p.2.1) h
  simp only at h1 h2
  exact Prod.ext h1 h2

theorem villagers_moved_setEvents (w : World) (E : List WorldEvent) (g : RNG) :
    (setEvents w E).villagers_moved g = w.villagers_moved g := rfl

theorem graves_cleared_setEvents (w : World) (E : List WorldEvent) :
    (setEvents w E).graves_cleared = setEvents w.graves_cleared E := rfl

/-! ## Shapes of the events each handler can produce -/

theorem farm_grew_shape (w : World) (k : ℕ) (g : RNG) :
    (w.farm_grew k g).2.1 = [] ∨
      ∃ c, (w.farm_grew k g).2.1 = [WorldEvent.FarmAdded c] := by
  simp only [World.farm_grew]
  split_ifs <;> simp

theorem villager_harvested_shape (w : World) (vk : ℕ) (g : RNG) :
    (w.villager_harvested vk g).2.1 = [] ∨
      (w.villager_harvested vk g).2.1 = [WorldEvent.VillagerHungered vk] ∨
      ∃ fk, (w.villager_harvested vk g).2.1 =
        [WorldEvent.FarmHarvested fk, WorldEvent.VillagerAte vk] := by
  simp only [World.villager_harvested]
  split_ifs <;> simp

theorem villager_hungered_shape (w : World) (k : ℕ) :
    (w.villager_hungered k).2 = [] ∨
      (w.villager_hungered k).2 = [WorldEvent.VillagerDied k] := by
  simp only [World.villager_hungered]
  split_ifs <;> simp

theorem villager_harvested_world (w : World) (vk : ℕ) (g : RNG) :
    (w.villager_harvested vk g).1 = w := by
  simp only [World.villager_harvested]
  split_ifs <;> rfl

/-! ## The phase steps are stack-oblivious -/

theorem growStep_setEvents (x : World) (E : List WorldEvent) (g : RNG) (k : ℕ) :
    growStep (setEvents x E, g) k =
      (setEvents (growStep (x, g) k).1 E, (growStep (x, g) k).2) := by
  rcases farm_grew_shape x k g with h | ⟨c, h⟩ <;>
    simp [growStep, farm_grew_setEvents, h, farm_added_setEvents]

theorem foldl_growStep_setEvents (ks : List ℕ) (x : World) (E : List WorldEvent) (g : RNG) :
    ks.foldl growStep (setEvents x E, g) =
      (setEvents (ks.foldl growStep (x, g)).1 E, (ks.foldl growStep (x, g)).2) := by
  induction ks generalizing x g with
  | nil => rfl
  | cons k ks ih =>
    simp only [List.foldl_cons, growStep_setEvents]
    rw [show ks.foldl growStep (setEvents (growStep (x, g) k).1 E, (growStep (x, g) k).2) =
      (setEvents (ks.foldl growStep ((growStep (x, g) k).1, (growStep (x, g) k).2)).1 E,
       (ks.foldl growStep ((growStep (x, g) k).1, (growStep (x, g) k).2)).2) from ih _ _]

theorem harvestStep_setEvents (x : World) (E : List WorldEvent) (g : RNG) (vk : ℕ) :
    harvestStep (setEvents x E, g) vk =
      (setEvents (harvestStep (x, g) vk).1 E, (harvestStep (x, g) vk).2) := by
  rcases villager_harvested_shape x vk g with h | h | ⟨fk, h⟩
  · simp [harvestStep, villager_harvested_setEvents, h]
  · rcases villager_hungered_shape (x.villager_harvested vk g).1 vk with h2 | h2 <;>
      simp [harvestStep, villager_harvested_setEvents, h, villager_hungered_setEvents,
        h2, villager_died_setEvents]
  · simp [harvestStep, villager_harvested_setEvents, h, villager_ate_setEvents,
      farm_harvested_setEvents]

theorem foldl_harvestStep_setEvents (ks : List ℕ) (x : World) (E : List WorldEvent)
    (g : RNG) :
    ks.foldl harvestStep (setEvents x E, g) =
      (setEvents (ks.foldl harvestStep (x, g)).1 E, (ks.foldl harvestStep (x, g)).2) := by
  induction ks generalizing x g with
  | nil => rfl
  | cons k ks ih =>
    simp only [List.foldl_cons, harvestStep_setEvents]
    rw [show ks.foldl harvestStep
        (setEvents (harvestStep (x, g) k).1 E, (harvestStep (x, g) k).2) =
      (setEvents (ks.foldl harvestStep ((harvestStep (x, g) k).1, (harvestStep (x, g) k).2)).1 E,
       (ks.foldl harvestStep ((harvestStep (x, g) k).1, (harvestStep (x, g) k).2)).2)
      from ih _ _]

theorem update_setEvents (w : World) (E F : List WorldEvent) :
    ({ setEvents w E with events := F } : World) = setEvents w F := rfl

/-- One dispatch of the drain loop, written through `setEvents`. -/
theorem processFuel_step (n : ℕ) (w : World) (g : RNG) (e : WorldEvent)
    (rest : List WorldEvent) (h : w.events = e :: rest) :
    World.processFuel (n + 1) w g =
      World.processFuel n
        (setEvents (World.handle w e g).1 ((World.handle w e g).2.1.reverse ++ rest))
        (World.handle w e g).2.2 := by
  have hb : ({ w with events := rest } : World) = setEvents w rest := rfl
  simp only [World.processFuel, h, hb, handle_setEvents, setEvents_events,
    update_setEvents]

theorem moveApply_setEvents (x : World) (E : List WorldEvent) (e : WorldEvent) :
    moveApply (setEvents x E) e = setEvents (moveApply x e) E := by
  cases e <;> rfl

theorem foldl_moveApply_setEvents (evs : List WorldEvent) (x : World)
    (E : List WorldEvent) :
    evs.foldl moveApply (setEvents x E) = setEvents (evs.foldl moveApply x) E := by
  induction evs generalizing x with
  | nil => rfl
  | cons e evs ih =>
    simp only [List.foldl_cons, moveApply_setEvents]
    exact ih _

/-! ## Draining one fan-out block of the LIFO stack -/

/-- Draining a block of `FarmGrew` events computes the growth-phase fold. -/
theorem growth_block (ks : List ℕ) (w : World) (g : RNG) (rest : List WorldEvent)
    (h : w.events = ks.map WorldEvent.FarmGrew ++ rest) :
    ∃ m, m ≤ 2 * ks.length ∧
      World.processFuel m w g =
        (setEvents (ks.foldl growStep (w, g)).1 rest, (ks.foldl growStep (w, g)).2) := by
  induction ks generalizing w g with
  | nil =>
    refine ⟨0, by omega, ?_⟩
    simp only [List.map_nil, List.nil_append] at h
    show (w, g) = _
    rw [List.foldl_nil, ← h, setEvents_self]
  | cons k ks ih =>
    have hw : w.events =
        WorldEvent.FarmGrew k :: (ks.map WorldEvent.FarmGrew ++ rest) := by
      simpa using h
    have hH : World.handle w (WorldEvent.FarmGrew k) g = w.farm_grew k g := rfl
    rcases farm_grew_shape w k g with hc | ⟨c, hc⟩
    · obtain ⟨m, hm, heq⟩ := ih
        (setEvents (w.farm_grew k g).1 (ks.map WorldEvent.FarmGrew ++ rest))
        (w.farm_grew k g).2.2 (setEvents_events _ _)
      refine ⟨m + 1, by simp only [List.length_cons]; omega, ?_⟩
      rw [processFuel_step m w g _ _ hw, hH, hc]
      simp only [List.reverse_nil, List.nil_append]
      rw [heq, foldl_growStep_setEvents, setEvents_setEvents]
      have hstep : growStep (w, g) k = ((w.farm_grew k g).1, (w.farm_grew k g).2.2) := by
        simp [growStep, hc]
      rw [List.foldl_cons, hstep]
    · obtain ⟨m, hm, heq⟩ := ih
        (setEvents ((w.farm_grew k g).1.farm_added c) (ks.map WorldEvent.FarmGrew ++ rest))
        (w.farm_grew k g).2.2 (setEvents_events _ _)
      refine ⟨m + 2, by simp only [List.length_cons]; omega, ?_⟩
      rw [show m + 2 = (m + 1) + 1 from rfl, processFuel_step (m + 1) w g _ _ hw, hH, hc]
      simp only [List.reverse_cons, List.reverse_nil, List.nil_append,
        List.cons_append, List.singleton_append]
      rw [processFuel_step m _ _ (WorldEvent.FarmAdded c) _ (setEvents_events _ _)]
      have hfa : World.handle
          (setEvents (w.farm_grew k g).1
            (WorldEvent.FarmAdded c :: (ks.map WorldEvent.FarmGrew ++ rest)))
          (WorldEvent.FarmAdded c) (w.farm_grew k g).2.2 =
          (setEvents ((w.farm_grew k g).1.farm_added c)
            (WorldEvent.FarmAdded c :: (ks.map WorldEvent.FarmGrew ++ rest)),
           [], (w.farm_grew k g).2.2) := by
        rw [handle_setEvents]
        rfl
      rw [hfa]
      simp only [List.reverse_nil, List.nil_append, setEvents_setEvents]
      rw [heq, foldl_growStep_setEvents, setEvents_setEvents]
      have hstep : growStep (w, g) k =
          ((w.farm_grew k g).1.farm_added c, (w.farm_grew k g).2.2) := by
        simp [growStep, hc]
      rw [List.foldl_cons, hstep]


/-- Draining a block of `VillagerHarvested` events computes the harvest-phase
fold. -/
theorem harvest_block (ks : List ℕ) (w : World) (g : RNG) (rest : List WorldEvent)
    (h : w.events = ks.map WorldEvent.VillagerHarvested ++ rest) :
    ∃ m, m ≤ 3 * ks.length ∧
      World.processFuel m w g =
        (setEvents (ks.foldl harvestStep (w, g)).1 rest, (ks.foldl harvestStep (w, g)).2) := by
  induction ks generalizing w g with
  | nil =>
    refine ⟨0, by omega, ?_⟩
    simp only [List.map_nil, List.nil_append] at h
    show (w, g) = _
    rw [List.foldl_nil, ← h, setEvents_self]
  | cons k ks ih =>
    have hw : w.events =
        WorldEvent.VillagerHarvested k :: (ks.map WorldEvent.VillagerHarvested ++ rest) := by
      simpa using h
    have hH : World.handle w (WorldEvent.VillagerHarvested k) g = w.villager_harvested k g :=
      rfl
    have hRw : (w.villager_harvested k g).1 = w := villager_harvested_world w k g
    rcases villager_harvested_shape w k g with hc | hc | ⟨fk, hc⟩
    · obtain ⟨m, hm, heq⟩ := ih
        (setEvents w (ks.map WorldEvent.VillagerHarvested ++ rest))
        (w.villager_harvested k g).2.2 (setEvents_events _ _)
      refine ⟨m + 1, by simp only [List.length_cons]; omega, ?_⟩
      rw [processFuel_step m w g _ _ hw, hH, hc, hRw]
      simp only [List.reverse_nil, List.nil_append]
      rw [heq, foldl_harvestStep_setEvents, setEvents_setEvents]
      have hstep : harvestStep (w, g) k = (w, (w.villager_harvested k g).2.2) := by
        simp [harvestStep, hc, hRw]
      rw [List.foldl_cons, hstep]
    · -- VillagerHungered path
      have hH2 : ∀ (E : List WorldEvent) (g2 : RNG),
          World.handle (setEvents w E) (WorldEvent.VillagerHungered k) g2 =
            (setEvents (w.villager_hungered k).1 E, (w.villager_hungered k).2, g2) := by
        intro E g2
        rw [handle_setEvents]
        rfl
      rcases villager_hungered_shape w k with hd | hd
      · obtain ⟨m, hm, heq⟩ := ih
          (setEvents (w.villager_hungered k).1 (ks.map WorldEvent.VillagerHarvested ++ rest))
          (w.villager_harvested k g).2.2 (setEvents_events _ _)
        refine ⟨m + 2, by simp only [List.length_cons]; omega, ?_⟩
        rw [show m + 2 = (m + 1) + 1 from rfl, processFuel_step (m + 1) w g _ _ hw, hH, hc,
          hRw]
        simp only [List.reverse_cons, List.reverse_nil, List.nil_append,
          List.singleton_append]
        rw [processFuel_step m _ _ (WorldEvent.VillagerHungered k) _ (setEvents_events _ _),
          hH2, hd]
        simp only [List.reverse_nil, List.nil_append, setEvents_setEvents]
        rw [heq, foldl_harvestStep_setEvents, setEvents_setEvents]
        have hstep : harvestStep (w, g) k =
            ((w.villager_hungered k).1, (w.villager_harvested k g).2.2) := by
          simp [harvestStep, hc, hRw, hd]
        rw [List.foldl_cons, hstep]
      · obtain ⟨m, hm, heq⟩ := ih
          (setEvents ((w.villager_hungered k).1.villager_died k)
            (ks.map WorldEvent.VillagerHarvested ++ rest))
          (w.villager_harvested k g).2.2 (setEvents_events _ _)
        refine ⟨m + 3, by simp only [List.length_cons]; omega, ?_⟩
        rw [show m + 3 = ((m + 1) + 1) + 1 from rfl, processFuel_step _ w g _ _ hw, hH, hc,
          hRw]
        simp only [List.reverse_cons, List.reverse_nil, List.nil_append,
          List.singleton_append]
        rw [processFuel_step _ _ _ (WorldEvent.VillagerHungered k) _ (setEvents_events _ _),
          hH2, hd]
        simp only [List.reverse_cons, List.reverse_nil, List.nil_append,
          List.singleton_append, setEvents_setEvents]
        have hH3 : World.handle
            (setEvents (w.villager_hungered k).1
              (WorldEvent.VillagerDied k :: (ks.map WorldEvent.VillagerHarvested ++ rest)))
            (WorldEvent.VillagerDied k) (w.villager_harvested k g).2.2 =
            (setEvents ((w.villager_hungered k).1.villager_died k)
              (WorldEvent.VillagerDied k :: (ks.map WorldEvent.VillagerHarvested ++ rest)),
             [], (w.villager_harvested k g).2.2) := by
          rw [handle_setEvents]
          rfl
        rw [processFuel_step _ _ _ (WorldEvent.VillagerDied k) _ (setEvents_events _ _), hH3]
        simp only [List.reverse_nil, List.nil_append, setEvents_setEvents]
        rw [heq, foldl_harvestStep_setEvents, setEvents_setEvents]
        have hstep : harvestStep (w, g) k =
            ((w.villager_hungered k).1.villager_died k, (w.villager_harvested k g).2.2) := by
          simp [harvestStep, hc, hRw, hd]
        rw [List.foldl_cons, hstep]
    · -- FarmHarvested + VillagerAte path
      obtain ⟨m, hm, heq⟩ := ih
        (setEvents ((w.villager_ate k).farm_harvested fk)
          (ks.map WorldEvent.VillagerHarvested ++ rest))
        (w.villager_harvested k g).2.2 (setEvents_events _ _)
      refine ⟨m + 3, by simp only [List.length_cons]; omega, ?_⟩
      rw [show m + 3 = ((m + 1) + 1) + 1 from rfl, processFuel_step _ w g _ _ hw, hH, hc,
        hRw]
      simp only [List.reverse_cons, List.reverse_nil, List.nil_append,
        List.singleton_append, List.cons_append]
      have hVA : World.handle
          (setEvents w (WorldEvent.VillagerAte k :: (WorldEvent.FarmHarvested fk ::
            (ks.map WorldEvent.VillagerHarvested ++ rest))))
          (WorldEvent.VillagerAte k) (w.villager_harvested k g).2.2 =
          (setEvents (w.villager_ate k) (WorldEvent.VillagerAte k ::
            (WorldEvent.FarmHarvested fk :: (ks.map WorldEvent.VillagerHarvested ++ rest))),
           [], (w.villager_harvested k g).2.2) := by
        rw [handle_setEvents]
        rfl
      rw [processFuel_step _ _ _ (WorldEvent.VillagerAte k) _ (setEvents_events _ _), hVA]
      simp only [List.reverse_nil, List.nil_append, setEvents_setEvents]
      have hFH : World.handle
          (setEvents (w.villager_ate k) (WorldEvent.FarmHarvested fk ::
            (ks.map WorldEvent.VillagerHarvested ++ rest)))
          (WorldEvent.FarmHarvested fk) (w.villager_harvested k g).2.2 =
          (setEvents ((w.villager_ate k).farm_harvested fk) (WorldEvent.FarmHarvested fk ::
            (ks.map WorldEvent.VillagerHarvested ++ rest)),
           [], (w.villager_harvested k g).2.2) := by
        rw [handle_setEvents]
        rfl
      rw [processFuel_step _ _ _ (WorldEvent.FarmHarvested fk) _ (setEvents_events _ _), hFH]
      simp only [List.reverse_nil, List.nil_append, setEvents_setEvents]
      rw [heq, foldl_harvestStep_setEvents, setEvents_setEvents]
      have hstep : harvestStep (w, g) k =
          ((w.villager_ate k).farm_harvested fk, (w.villager_harvested k g).2.2) := by
        simp [harvestStep, hc, hRw]
      rw [List.foldl_cons, hstep]

/-- Draining a block of `VillagerMoved` events applies the moves in stack
order and consumes no entropy. -/
theorem moves_block (evs : List WorldEvent) (w : World) (g : RNG)
    (rest : List WorldEvent)
    (hsh : ∀ e ∈ evs, ∃ k d, e = WorldEvent.VillagerMoved k d)
    (h : w.events = evs ++ rest) :
    World.processFuel evs.length w g = (setEvents (evs.foldl moveApply w) rest, g) := by
  induction evs generalizing w with
  | nil =>
    simp only [List.nil_append] at h
    show (w, g) = _
    rw [List.foldl_nil, ← h, setEvents_self]
  | cons e evs ih =>
    obtain ⟨k, d, rfl⟩ := hsh e (by simp)
    have hw : w.events = WorldEvent.VillagerMoved k d :: (evs ++ rest) := by simpa using h
    rw [List.length_cons, processFuel_step _ w g _ _ hw]
    have hh : World.handle w (WorldEvent.VillagerMoved k d) g =
        (w.villager_moved k d, [], g) := rfl
    rw [hh]
    simp only [List.reverse_nil, List.nil_append]
    rw [ih (setEvents (w.villager_moved k d) (evs ++ rest))
      (fun e2 he2 => hsh e2 (by simp [he2])) (setEvents_events _ _)]
    rw [foldl_moveApply_setEvents, setEvents_setEvents, List.foldl_cons]
    rfl

/-! ## Field-preservation facts for the phase steps -/

theorem farm_grew_fields (w : World) (k : ℕ) (g : RNG) :
    (w.farm_grew k g).1.events = w.events ∧
    (w.farm_grew k g).1.villagers = w.villagers ∧
    (w.farm_grew k g).1.satiation = w.satiation ∧
    (w.farm_grew k g).1.ticks = w.ticks ∧
    (w.farm_grew k g).1.death_markers = w.death_markers := by
  simp only [World.farm_grew]
  split_ifs <;> exact ⟨rfl, rfl, rfl, rfl, rfl⟩

theorem growStep_fields (p : World × RNG) (k : ℕ) :
    (growStep p k).1.events = p.1.events ∧
    (growStep p k).1.villagers = p.1.villagers ∧
    (growStep p k).1.satiation = p.1.satiation ∧
    (growStep p k).1.ticks = p.1.ticks ∧
    (growStep p k).1.death_markers = p.1.death_markers := by
  obtain ⟨h1, h2, h3, h4, h5⟩ := farm_grew_fields p.1 k p.2
  rcases farm_grew_shape p.1 k p.2 with hc | ⟨c, hc⟩ <;>
    simp [growStep, hc, World.farm_added, h1, h2, h3, h4, h5]

theorem foldl_growStep_fields (ks : List ℕ) (p : World × RNG) :
    ((ks.foldl growStep p).1).events = p.1.events ∧
    ((ks.foldl growStep p).1).villagers = p.1.villagers ∧
    ((ks.foldl growStep p).1).satiation = p.1.satiation ∧
    ((ks.foldl growStep p).1).ticks = p.1.ticks ∧
    ((ks.foldl growStep p).1).death_markers = p.1.death_markers := by
  induction ks generalizing p with
  | nil => exact ⟨rfl, rfl, rfl, rfl, rfl⟩
  | cons k ks ih =>
    obtain ⟨h1, h2, h3, h4, h5⟩ := growStep_fields p k
    obtain ⟨i1, i2, i3, i4, i5⟩ := ih (growStep p k)
    rw [List.foldl_cons]
    exact ⟨i1.trans h1, i2.trans h2, i3.trans h3, i4.trans h4, i5.trans h5⟩

theorem villager_hungered_fields (w : World) (k : ℕ) :
    (w.villager_hungered k).1.events = w.events ∧
    (w.villager_hungered k).1.ticks = w.ticks ∧
    (w.villager_hungered k).1.farms = w.farms ∧
    (w.villager_hungered k).1.coords = w.coords ∧
    (w.villager_hungered k).1.villagers.length = w.villagers.length := by
  simp only [World.villager_hungered]
  split_ifs <;> simp [SMap.length_mapAt]

theorem harvestStep_fields (p : World × RNG) (vk : ℕ) :
    (harvestStep p vk).1.events = p.1.events ∧
    (harvestStep p vk).1.ticks = p.1.ticks ∧
    (harvestStep p vk).1.villagers.length ≤ p.1.villagers.length := by
  have hRw : (p.1.villager_harvested vk p.2).1 = p.1 := villager_harvested_world p.1 vk p.2
  rcases villager_harvested_shape p.1 vk p.2 with hc | hc | ⟨fk, hc⟩
  · simp [harvestStep, hc, hRw]
  · obtain ⟨h1, h2, _h3, _h4, h5⟩ := villager_hungered_fields p.1 vk
    rcases villager_hungered_shape p.1 vk with hd | hd
    · simp only [harvestStep, hc, hRw, hd]
      exact ⟨h1, h2, le_of_eq h5⟩
    · simp only [harvestStep, hc, hRw, hd, World.villager_died]
      refine ⟨h1, h2, ?_⟩
      exact le_trans (SMap.length_remove_le _ _) (le_of_eq h5)
  · simp [harvestStep, hc, hRw, World.villager_ate, World.farm_harvested,
      SMap.length_mapAt]

theorem foldl_harvestStep_fields (ks : List ℕ) (p : World × RNG) :
    ((ks.foldl harvestStep p).1).events = p.1.events ∧
    ((ks.foldl harvestStep p).1).ticks = p.1.ticks ∧
    ((ks.foldl harvestStep p).1).villagers.length ≤ p.1.villagers.length := by
  induction ks generalizing p with
  | nil => exact ⟨rfl, rfl, le_refl _⟩
  | cons k ks ih =>
    obtain ⟨h1, h2, h3⟩ := harvestStep_fields p k
    obtain ⟨i1, i2, i3⟩ := ih (harvestStep p k)
    rw [List.foldl_cons]
    exact ⟨i1.trans h1, i2.trans h2, le_trans i3 h3⟩

theorem moveApply_fields (w : World) (e : WorldEvent) :
    (moveApply w e).events = w.events ∧
    (moveApply w e).villagers = w.villagers ∧
    (moveApply w e).satiation = w.satiation ∧
    (moveApply w e).ticks = w.ticks ∧
    (moveApply w e).farms = w.farms ∧
    (moveApply w e).death_markers = w.death_markers := by
  cases e <;> exact ⟨rfl, rfl, rfl, rfl, rfl, rfl⟩

theorem foldl_moveApply_fields (evs : List WorldEvent) (w : World) :
    (evs.foldl moveApply w).events = w.events ∧
    (evs.foldl moveApply w).villagers = w.villagers ∧
    (evs.foldl moveApply w).satiation = w.satiation ∧
    (evs.foldl moveApply w).ticks = w.ticks ∧
    (evs.foldl moveApply w).farms = w.farms ∧
    (evs.foldl moveApply w).death_markers = w.death_markers := by
  induction evs generalizing w with
  | nil => exact ⟨rfl, rfl, rfl, rfl, rfl, rfl⟩
  | cons e evs ih =>
    obtain ⟨h1, h2, h3, h4, h5, h6⟩ := moveApply_fields w e
    obtain ⟨i1, i2, i3, i4, i5, i6⟩ := ih (moveApply w e)
    rw [List.foldl_cons]
    exact ⟨i1.trans h1, i2.trans h2, i3.trans h3, i4.trans h4, i5.trans h5, i6.trans h6⟩

theorem foldl_movedStep_shape (ks : List ℕ) (acc : List WorldEvent × RNG) :
    ∀ e ∈ (ks.foldl World.movedStep acc).1,
      e ∈ acc.1 ∨ ∃ k d, e = WorldEvent.VillagerMoved k d ∧ k ∈ ks := by
  induction ks generalizing acc with
  | nil => exact fun e he => Or.inl he
  | cons k ks ih =>
    intro e he
    rw [List.foldl_cons] at he
    rcases ih (World.movedStep acc k) e he with hmem | ⟨k2, d2, he2, hk2⟩
    · simp only [World.movedStep, List.mem_append, List.mem_singleton] at hmem
      rcases hmem with h | h
      · exact Or.inl h
      · exact Or.inr ⟨k, _, h, by simp⟩
    · exact Or.inr ⟨k2, d2, he2, by simp [hk2]⟩

theorem foldl_movedStep_length (ks : List ℕ) (acc : List WorldEvent × RNG) :
    (ks.foldl World.movedStep acc).1.length = acc.1.length + ks.length := by
  induction ks generalizing acc with
  | nil => simp
  | cons k ks ih =>
    rw [List.foldl_cons, ih]
    simp [World.movedStep]
    omega

theorem villagers_moved_shape (w : World) (g : RNG) :
    ∀ e ∈ (w.villagers_moved g).1,
      ∃ k d, e = WorldEvent.VillagerMoved k d ∧ k ∈ w.villagers.keys := by
  intro e he
  rcases foldl_movedStep_shape w.villagers.keys ([], g) e he with h | h
  · cases h
  · exact h

theorem villagers_moved_length (w : World) (g : RNG) :
    (w.villagers_moved g).1.length = w.villagers.length := by
  show (w.villagers.keys.foldl World.movedStep ([], g)).1.length = _
  rw [foldl_movedStep_length]
  simp [SMap.keys]

/-! ## The cascade equals the phase pipeline -/

/-- The LIFO dispatcher, started on the canonical batch pushed by
`advance_world`, computes exactly the spec §4.4 pipeline: graves first,
then growth, then harvesting, then movement — and quiesces. -/
theorem advance_world_eq_cascade (w : World) (g : RNG) (h : w.events = []) :
    World.advance_world w g = cascade w g ∧ (cascade w g).1.events = [] := by
  have hW1 : ({ w with events :=
      WorldEvent.GravesCleared :: WorldEvent.FarmsCultivated ::
      WorldEvent.VillagersFarmed :: WorldEvent.VillagersMoved :: w.events } : World) =
      setEvents w [WorldEvent.GravesCleared, WorldEvent.FarmsCultivated,
        WorldEvent.VillagersFarmed, WorldEvent.VillagersMoved] := by
    rw [h]
    rfl
  set w_g : World := gravesPhase w with hwg
  set G : World × RNG := growthPhase w_g g with hG
  set H : World × RNG := harvestPhase G.1 G.2 with hH
  set M : World × RNG := movePhase H.1 H.2 with hM
  set ne2 : List WorldEvent := (H.1.villagers_moved H.2).1 with hne2
  -- step 1: pop GravesCleared
  have e1 : World.processFuel 1
      (setEvents w [WorldEvent.GravesCleared, WorldEvent.FarmsCultivated,
        WorldEvent.VillagersFarmed, WorldEvent.VillagersMoved]) g =
      (setEvents w_g [WorldEvent.FarmsCultivated, WorldEvent.VillagersFarmed,
        WorldEvent.VillagersMoved], g) := rfl
  -- step 2: pop FarmsCultivated
  have e2 : World.processFuel 1
      (setEvents w_g [WorldEvent.FarmsCultivated, WorldEvent.VillagersFarmed,
        WorldEvent.VillagersMoved]) g =
      (setEvents w_g ((World.farms_cultivated w_g).reverse ++
        [WorldEvent.VillagersFarmed, WorldEvent.VillagersMoved]), g) := rfl
  -- step 3: drain the FarmGrew block
  have hksform : (World.farms_cultivated w_g).reverse =
      ((w_g.farms.values.map Farm.key).reverse).map WorldEvent.FarmGrew := by
    simp [World.farms_cultivated, List.map_map, Function.comp]
  obtain ⟨m1, hm1, e3⟩ := growth_block ((w_g.farms.values.map Farm.key).reverse)
    (setEvents w_g ((World.farms_cultivated w_g).reverse ++
      [WorldEvent.VillagersFarmed, WorldEvent.VillagersMoved])) g
    [WorldEvent.VillagersFarmed, WorldEvent.VillagersMoved]
    (by rw [setEvents_events, hksform])
  rw [foldl_growStep_setEvents] at e3
  rw [setEvents_setEvents] at e3
  have hGfold : ((w_g.farms.values.map Farm.key).reverse).foldl growStep (w_g, g) = G := by
    rw [hG]
    rfl
  rw [hGfold] at e3
  -- step 4: pop VillagersFarmed
  have e4 : World.processFuel 1
      (setEvents G.1 [WorldEvent.VillagersFarmed, WorldEvent.VillagersMoved]) G.2 =
      (setEvents G.1 ((World.villagers_farmed G.1).reverse ++ [WorldEvent.VillagersMoved]),
        G.2) := rfl
  -- step 5: drain the VillagerHarvested block
  have hvform : (World.villagers_farmed G.1).reverse =
      (G.1.villagers.keys.reverse).map WorldEvent.VillagerHarvested := by
    simp [World.villagers_farmed]
  obtain ⟨m2, hm2, e5⟩ := harvest_block (G.1.villagers.keys.reverse)
    (setEvents G.1 ((World.villagers_farmed G.1).reverse ++ [WorldEvent.VillagersMoved]))
    G.2 [WorldEvent.VillagersMoved]
    (by rw [setEvents_events, hvform])
  rw [foldl_harvestStep_setEvents] at e5
  rw [setEvents_setEvents] at e5
  have hHfold : (G.1.villagers.keys.reverse).foldl harvestStep (G.1, G.2) = H := by
    rw [hH]
    rfl
  rw [hHfold] at e5
  -- step 6: pop VillagersMoved (this is where the directions are drawn)
  have e6 : World.processFuel 1 (setEvents H.1 [WorldEvent.VillagersMoved]) H.2 =
      (setEvents H.1 (ne2.reverse ++ []), (H.1.villagers_moved H.2).2) := rfl
  rw [List.append_nil] at e6
  -- step 7: drain the VillagerMoved block
  have e7 : World.processFuel ne2.reverse.length
      (setEvents H.1 ne2.reverse) (H.1.villagers_moved H.2).2 =
      (setEvents (ne2.reverse.foldl moveApply H.1) [], (H.1.villagers_moved H.2).2) := by
    have := moves_block ne2.reverse (setEvents H.1 ne2.reverse)
      (H.1.villagers_moved H.2).2 []
      (by
        intro e he
        rw [List.mem_reverse] at he
        obtain ⟨k, d, he2, _⟩ := villagers_moved_shape H.1 H.2 e (hne2 ▸ he)
        exact ⟨k, d, he2⟩)
      (by rw [setEvents_events, List.append_nil])
    rw [foldl_moveApply_setEvents, setEvents_setEvents] at this
    exact this
  have hM1 : ne2.reverse.foldl moveApply H.1 = M.1 := by
    rw [hM]
    rfl
  have hM2 : (H.1.villagers_moved H.2).2 = M.2 := by
    rw [hM]
    rfl
  -- the cascade quiesces: the pipeline's world keeps the empty starting stack
  have hMev : M.1.events = [] := by
    rw [hM]
    have h1 := (foldl_moveApply_fields (ne2.reverse) H.1).1
    have h2 := (foldl_harvestStep_fields (G.1.villagers.keys.reverse) (G.1, G.2)).1
    have h3 := (foldl_growStep_fields ((w_g.farms.values.map Farm.key).reverse) (w_g, g)).1
    show (ne2.reverse.foldl moveApply H.1).events = []
    rw [h1, hH]
    show ((G.1.villagers.keys.reverse).foldl harvestStep (G.1, G.2)).1.events = []
    rw [h2, hG]
    show (((w_g.farms.values.map Farm.key).reverse).foldl growStep (w_g, g)).1.events = []
    rw [h3]
    exact h
  have e7f : World.processFuel ne2.reverse.length
      (setEvents H.1 ne2.reverse) (H.1.villagers_moved H.2).2 = (M.1, M.2) := by
    rw [e7, hM1, hM2, ← hMev, setEvents_self]
  -- assemble the fuel chain
  set N : ℕ := 1 + (1 + (m1 + (1 + (m2 + (1 + ne2.reverse.length))))) with hN
  have hchain : World.processFuel N
      (setEvents w [WorldEvent.GravesCleared, WorldEvent.FarmsCultivated,
        WorldEvent.VillagersFarmed, WorldEvent.VillagersMoved]) g = (M.1, M.2) := by
    rw [hN, processFuel_add, e1]
    dsimp only
    rw [processFuel_add, e2]
    dsimp only
    rw [processFuel_add, e3]
    dsimp only
    rw [processFuel_add, e4]
    dsimp only
    rw [processFuel_add, e5]
    dsimp only
    rw [processFuel_add, e6]
    dsimp only
    exact e7f
  -- the declared fuel bound is at least the fuel actually used
  have hlen1 : (w_g.farms.values.map Farm.key).reverse.length = w.farms.length := by
    simp [SMap.values, hwg, gravesPhase, World.graves_cleared]
  have hGv : G.1.villagers = w.villagers := by
    have h2 := (foldl_growStep_fields ((w_g.farms.values.map Farm.key).reverse) (w_g, g)).2.1
    rw [hG]
    show (((w_g.farms.values.map Farm.key).reverse).foldl growStep (w_g, g)).1.villagers = _
    rw [h2]
    rfl
  have hlen2 : G.1.villagers.keys.reverse.length = w.villagers.length := by
    rw [hGv]
    simp [SMap.keys]
  have hlen3 : ne2.reverse.length ≤ w.villagers.length := by
    rw [List.length_reverse, hne2, villagers_moved_length]
    have h3 := (foldl_harvestStep_fields (G.1.villagers.keys.reverse) (G.1, G.2)).2.2
    have : H.1.villagers.length ≤ G.1.villagers.length := by
      rw [hH]
      exact h3
    rw [hGv] at this
    exact this
  have hbound : N ≤ World.fuelBound w := by
    rw [hN]
    unfold World.fuelBound
    rw [hlen1] at hm1
    rw [hlen2] at hm2
    omega
  -- conclude
  have hadv : World.advance_world w g = World.processFuel (World.fuelBound w)
      (setEvents w [WorldEvent.GravesCleared, WorldEvent.FarmsCultivated,
        WorldEvent.VillagersFarmed, WorldEvent.VillagersMoved]) g := by
    unfold World.advance_world
    rw [hW1]
  have hstab := processFuel_stable N (World.fuelBound w)
    (setEvents w [WorldEvent.GravesCleared, WorldEvent.FarmsCultivated,
      WorldEvent.VillagersFarmed, WorldEvent.VillagersMoved]) g
    (by rw [hchain]; exact hMev) hbound
  constructor
  · rw [hadv, hstab, hchain]
    rw [hM, hH, hG, hwg]
    rfl
  · show (cascade w g).1.events = []
    have : cascade w g = M := by
      rw [hM, hH, hG, hwg]
      rfl
    rw [this]
    exact hMev

/-! ## Tick-level corollaries -/

theorem handle_ticks (w : World) (e : WorldEvent) (g : RNG) :
    (World.handle w e g).1.ticks = w.ticks := by
  cases e with
  | VillagerMoved k d => rfl
  | VillagerAte k => rfl
  | VillagerHungered k =>
    simp only [World.handle, World.villager_hungered]
    split_ifs <;> rfl
  | FarmGrew k =>
    simp only [World.handle, World.farm_grew]
    split_ifs <;> rfl
  | FarmHarvested k => rfl
  | VillagerDied vk => rfl
  | FarmAdded c => rfl
  | VillagerHarvested vk =>
    simp only [World.handle, World.villager_harvested]
    split_ifs <;> rfl
  | GravesCleared => rfl
  | FarmsCultivated => rfl
  | VillagersFarmed => rfl
  | VillagersMoved => rfl

theorem processFuel_ticks (n : ℕ) (w : World) (g : RNG) :
    (World.processFuel n w g).1.ticks = w.ticks := by
  induction n generalizing w g with
  | zero => rfl
  | succ n ih =>
    cases hw : w.events with
    | nil => rw [processFuel_nil (n + 1) w g hw]
    | cons e rest =>
      rw [processFuel_step n w g e rest hw, ih]
      rw [setEvents_ticks]
      exact handle_ticks w e g

theorem tick_ticks (w : World) (g : RNG) :
    (World.tick w g).1.ticks = w.ticks + 1 := by
  cases hb : ((w.ticks + 1 + 1) % 20 == 0) with
  | false =>
    simp only [World.tick, hb]
    rfl
  | true =>
    simp only [World.tick, hb, if_true]
    show (World.advance_world { w with ticks := w.ticks + 1 } g).1.ticks = _
    unfold World.advance_world
    rw [processFuel_ticks]

theorem tick_nonboundary (w : World) (g : RNG) (h : (w.ticks + 2) % 20 ≠ 0) :
    World.tick w g = ({ w with ticks := w.ticks + 1 }, g) := by
  unfold World.tick
  rw [if_neg]
  simp only [beq_iff_eq]
  show ¬ (w.ticks + 1 + 1) % 20 = 0
  omega

theorem tick_boundary (w : World) (g : RNG) (he : w.events = [])
    (h : (w.ticks + 2) % 20 = 0) :
    World.tick w g = cascade { w with ticks := w.ticks + 1 } g := by
  unfold World.tick
  rw [if_pos]
  · exact (advance_world_eq_cascade { w with ticks := w.ticks + 1 } g he).1
  · simp only [beq_iff_eq]
    show (w.ticks + 1 + 1) % 20 = 0
    omega

theorem tick_events_nil (w : World) (g : RNG) (he : w.events = []) :
    (World.tick w g).1.events = [] := by
  by_cases hb : (w.ticks + 2) % 20 = 0
  · rw [tick_boundary w g he hb]
    exact (advance_world_eq_cascade { w with ticks := w.ticks + 1 } g he).2
  · rw [tick_nonboundary w g hb]
    exact he

theorem add_villager_at_events (w : World) (x y : ℕ) :
    (w.add_villager_at x y).1.events = w.events := rfl

theorem add_farm_at_events (w : World) (x y : ℕ) :
    (w.add_farm_at x y).1.events = w.events := rfl

theorem reachable_events_nil (w : World) (hr : Reachable w) : w.events = [] := by
  induction hr with
  | new => rfl
  | tick w g _ ih => exact tick_events_nil w g ih
  | add_villager_at w x y _ ih => exact ih
  | add_farm_at w x y _ ih => exact ih

/-! ## Iterated ticks -/

theorem tickN_add (a b : ℕ) (w : World) (g : RNG) :
    tickN (a + b) w g = tickN b (tickN a w g).1 (tickN a w g).2 := by
  induction a generalizing w g with
  | zero =>
    rw [Nat.zero_add]
    rfl
  | succ n ih =>
    rw [show n + 1 + b = (n + b) + 1 from by omega]
    show tickN (n + b) (World.tick w g).1 (World.tick w g).2 = _
    rw [ih]
    rfl

theorem tickN_no_boundary (n : ℕ) (w : World) (g : RNG)
    (h : ∀ m, m < n → (w.ticks + m + 2) % 20 ≠ 0) :
    tickN n w g = ({ w with ticks := w.ticks + n }, g) := by
  induction n generalizing w with
  | zero =>
    show (w, g) = _
    rw [Nat.add_zero]
  | succ n ih =>
    show tickN n (World.tick w g).1 (World.tick w g).2 = _
    rw [tick_nonboundary w g (by have h0 := h 0 (by omega); omega)]
    show tickN n ({ w with ticks := w.ticks + 1 }) g = _
    rw [ih { w with ticks := w.ticks + 1 } (by
      intro m hm
      have h2 := h (m + 1) (by omega)
      show (w.ticks + 1 + m + 2) % 20 ≠ 0
      omega)]
    show ({ w with ticks := w.ticks + 1 + n }, g) = _
    rw [show w.ticks + 1 + n = w.ticks + (n + 1) from by omega]

/-! ## The first cascade of the seeded world, for an arbitrary draw stream -/

theorem c1Start_eq : c1Start = { World.new with ticks := 19 } := by decide

theorem c1_growth (g : RNG) : growthPhase (gravesPhase c1Start) g = (c1Start, g) := rfl

set_option maxHeartbeats 1000000 in
theorem c1_harvest (g : RNG) :
    harvestPhase c1Start g = (c1AfterHarvest (g 0 % 3), RNG.shift g) := rfl

set_option maxHeartbeats 1000000 in
theorem c1_move (i : ℕ) (g : RNG) :
    movePhase (c1AfterHarvest i) g = (c1Final i (g 0 % 4), RNG.shift g) := rfl

set_option maxHeartbeats 1000000 in
theorem c1_cascade (g : RNG) :
    cascade c1Start g = (c1Final (g 0 % 3) (g 1 % 4), RNG.shift (RNG.shift g)) := by
  show movePhase (harvestPhase (growthPhase (gravesPhase c1Start) g).1
      (growthPhase (gravesPhase c1Start) g).2).1
    (harvestPhase (growthPhase (gravesPhase c1Start) g).1
      (growthPhase (gravesPhase c1Start) g).2).2 = _
  rw [c1_growth g]
  show movePhase (harvestPhase c1Start g).1 (harvestPhase c1Start g).2 = _
  rw [c1_harvest g]
  show movePhase (c1AfterHarvest (g 0 % 3)) (RNG.shift g) = _
  rw [c1_move (g 0 % 3) (RNG.shift g)]
  rfl

theorem tickN_one (w : World) (g : RNG) : tickN 1 w g = World.tick w g := rfl

set_option maxHeartbeats 1000000 in
set_option maxRecDepth 100000 in
theorem c1_run (g : RNG) :
    tickN 19 World.new g = (c1Final (g 0 % 3) (g 1 % 4), RNG.shift (RNG.shift g)) := by
  have h18 := tickN_no_boundary 18 World.new g (by decide)
  rw [show (19 : ℕ) = 18 + 1 from rfl, tickN_add, h18]
  dsimp only
  rw [tickN_one]
  rw [tick_boundary ({ World.new with ticks := World.new.ticks + 18 }) g (by decide) (by decide)]
  suffices hs : cascade c1Start g =
      (c1Final (g 0 % 3) (g 1 % 4), RNG.shift (RNG.shift g)) by
    rw [← hs]
    congr 1
  exact c1_cascade g

theorem adj_dir (v : ℕ) :
    adjacentCell (coords_after_move (4, 4) (directionOfDraw v)) (4, 4) := by
  rcases v with _ | (_ | (_ | v2))
  · decide
  · decide
  · decide
  · show adjacentCell (coords_after_move (4, 4) Direction.Right) (4, 4)
    decide

/-! ## Claim C1 -/

set_option maxRecDepth 1000000 in
set_option maxHeartbeats 4000000 in
/-- C1, counterexample: after exactly 19 calls to `tick()` the cascade has
already fired (the farm count is 2, not 3), so the world is not identical
to the initial state except for the tick counter; and the 20th call changes
nothing but the tick counter. -/
theorem c1_counterexample :
    (tickN 19 World.new zeros).1 ≠ ({ World.new with ticks := 19 } : World) ∧
    (tickN 20 World.new zeros).1 = { (tickN 19 World.new zeros).1 with ticks := 20 } := by
  constructor
  · intro hcontra
    have h1 : (tickN 19 World.new zeros).1.farms.length = 2 := by decide
    rw [hcontra] at h1
    have h2 : ({ World.new with ticks := 19 } : World).farms.length = 3 := by decide
    rw [h2] at h1
    cases h1
  · decide

set_option maxRecDepth 1000000 in
set_option maxHeartbeats 4000000 in
/-- C1 (amended): starting from `World::new()`, 18 calls to `tick()` fire
no cascade and leave the world identical to the initial state except for
the tick counter; the 19th call (the counter reaches 19 and
`(19 + 1) % 20 == 0`) runs the cascade, in which the villager
(satiation < 5, recently fed) harvests exactly one farm — the farm count
drops from 3 to 2 and its satiation rises from 1 to 2 — before the
villager is relocated by one cell; this holds for every draw stream. -/
theorem c1_amended_scenario : ∀ g : RNG,
    (tickN 18 World.new g).1 = { World.new with ticks := 18 } ∧
    (tickN 19 World.new g).1.farms.length = 2 ∧
    (tickN 19 World.new g).1.satiation.getD 0 0 = 2 ∧
    (tickN 19 World.new g).1.villagers.length = 1 ∧
    (∃ f ∈ World.new.farms.values,
      (tickN 19 World.new g).1.farms = World.new.farms.remove f.key) ∧
    adjacentCell ((tickN 19 World.new g).1.coords.getD 0 (0, 0)) (4, 4) := by
  intro g
  have h18 := tickN_no_boundary 18 World.new g (by decide)
  have h19 := c1_run g
  have hi : g 0 % 3 < 3 := Nat.mod_lt _ (by norm_num)
  have hfacts : ∀ i, i < 3 →
      ((c1AfterHarvest i).farms.length = 2 ∧
       ∃ f ∈ World.new.farms.values,
         (c1AfterHarvest i).farms = World.new.farms.remove f.key) := by decide
  obtain ⟨hf1, hf2⟩ := hfacts (g 0 % 3) hi
  refine ⟨?_, ?_, ?_, ?_, ?_, ?_⟩
  · rw [h18]
    dsimp only
    decide
  · rw [h19]
    exact hf1
  · rw [h19]
    rfl
  · rw [h19]
    rfl
  · rw [h19]
    exact hf2
  · rw [h19]
    show adjacentCell ((c1Final (g 0 % 3) (g 1 % 4)).coords.getD 0 (0, 0)) (4, 4)
    have hcoord : (c1Final (g 0 % 3) (g 1 % 4)).coords.getD 0 (0, 0) =
        coords_after_move (4, 4) (directionOfDraw (g 1 % 4)) := rfl
    rw [hcoord]
    exact adj_dir (g 1 % 4)

/-! ## Claim C6 -/

/-- C6, counterexample: a villager standing on the border cell (4,0) —
placeable through the public `add_villager_at` — stays at (4,0) when a
`VillagerMoved` with direction `Up` is processed, and (4,0) is outside the
interior playfield, so movement does not always yield an interior
coordinate. -/
theorem c6_counterexample :
    borderWorld.coords.getD 4 (9, 9) = (4, 0) ∧
    (borderWorld.villager_moved 4 Direction.Up).coords.getD 4 (9, 9) = (4, 0) ∧
    ¬ interior (4, 0) := by
  decide

/-- C6 (amended): clamped movement never leaves the interior playfield —
for every coordinate already inside `[1, GRID_WIDTH-2] × [1, GRID_HEIGHT-2]`
and every direction, `coords_after_move` yields an interior coordinate. -/
theorem c6_amended_interior_invariant (x y : ℕ) (d : Direction)
    (h : interior (x, y)) : interior (coords_after_move (x, y) d) := by
  obtain ⟨h1, h2, h3, h4⟩ := h
  simp only [GRID_WIDTH, GRID_HEIGHT] at h2 h4
  cases d <;>
    simp only [coords_after_move, interior, GRID_WIDTH, GRID_HEIGHT] <;>
    split_ifs <;>
    refine ⟨by omega, by omega, by omega, by omega⟩

/-- Witness for the C6 amended theorem at a concrete interior input. -/
theorem c6_amended_interior_invariant_witness :
    interior (4, 4) ∧ interior (coords_after_move (4, 4) Direction.Up) :=
  ⟨by decide, c6_amended_interior_invariant 4 4 Direction.Up (by decide)⟩

/-! ## Claim C9 -/

set_option maxRecDepth 1000000 in
set_option maxHeartbeats 4000000 in
/-- C9, counterexample: the draws come from `rand::thread_rng()`, a hidden
thread-local global that `tick()` takes no seed for, so two runs from equal
world states under different ambient entropy produce different worlds: with
the all-zero stream the villager ends at (4,3), with the all-one stream at
(4,5). -/
theorem c9_counterexample :
    (tickN 19 World.new zeros).1.coords.getD 0 (9, 9) = (4, 3) ∧
    (tickN 19 World.new ones).1.coords.getD 0 (9, 9) = (4, 5) ∧
    (tickN 19 World.new zeros).1 ≠ (tickN 19 World.new ones).1 := by
  refine ⟨by decide, by decide, ?_⟩
  intro hcontra
  have h1 : (tickN 19 World.new zeros).1.coords.getD 0 (9, 9) = (4, 3) := by decide
  have h2 : (tickN 19 World.new ones).1.coords.getD 0 (9, 9) = (4, 5) := by decide
  rw [hcontra, h2] at h1
  cases h1

set_option maxRecDepth 1000000 in
set_option maxHeartbeats 4000000 in
/-- C9 (amended): the state transition is deterministic as a function of
the world and the injected draw stream — runs with pointwise-equal streams
agree — and under a fixed injected stream the outcomes are exactly
reproducible (with all-zero draws, farm key 1 is the harvested farm and the
drawn direction is `Up`).  In the code as written the draws come from
`rand::thread_rng()` / `rand::random()`, so no seed can be supplied through
the API. -/
theorem c9_amended_determinism :
    (∀ (w : World) (g1 g2 : RNG), (∀ n, g1 n = g2 n) →
      World.tick w g1 = World.tick w g2) ∧
    (tickN 19 World.new zeros).1.farms.keys = [2, 3] ∧
    (tickN 19 World.new zeros).1.coords.getD 0 (9, 9) = (4, 3) := by
  refine ⟨?_, by decide, by decide⟩
  intro w g1 g2 hg
  rw [funext hg]

/-- Witness for the C9 amended theorem: the determinism conjunct applied at
a concrete world and stream. -/
theorem c9_amended_determinism_witness :
    World.tick World.new zeros = World.tick World.new zeros :=
  c9_amended_determinism.1 World.new zeros zeros (fun _ => rfl)

/-! ## Claim C8 -/

theorem listGetD_mem {α : Type} (l : List α) (i : ℕ) (d : α) (h : i < l.length) :
    l.getD i d ∈ l := by
  induction l generalizing i with
  | nil => simp at h
  | cons a t ih =>
    cases i with
    | zero => simp [List.getD_cons_zero]
    | succ n =>
      have hm := ih n (by simpa using h)
      simp only [List.getD_cons_succ, List.mem_cons]
      exact Or.inr hm

/-- C8: `VillagerHarvested(key)` computes
`need_to_eat = satiation < 5 && now - last_ate < 40`; when it holds and a
farm exists it enqueues exactly `FarmHarvested` for the drawn farm plus
`VillagerAte`; when it holds and no farm exists it enqueues exactly
`VillagerHungered`; otherwise it enqueues nothing — and in every case the
world itself is unchanged. -/
theorem c8_villager_harvested_policy (w : World) (vk : ℕ) (g : RNG) (v : Villager)
    (s : ℕ) (hv : w.villagers.get? vk = some v) (hs : w.satiation.get? vk = some s) :
    (w.villager_harvested vk g).1 = w ∧
    (need_to_eat_spec s w.ticks v.last_ate → w.farms.values ≠ [] →
      ∃ f ∈ w.farms.values,
        f = w.farms.values.getD (g 0 % w.farms.values.length) World.dummyFarm ∧
        (w.villager_harvested vk g).2.1 =
          [WorldEvent.FarmHarvested f.key, WorldEvent.VillagerAte vk]) ∧
    (need_to_eat_spec s w.ticks v.last_ate → w.farms.values = [] →
      (w.villager_harvested vk g).2.1 = [WorldEvent.VillagerHungered vk] ∧
      (w.villager_harvested vk g).2.2 = g) ∧
    (¬ need_to_eat_spec s w.ticks v.last_ate →
      (w.villager_harvested vk g).2.1 = [] ∧ (w.villager_harvested vk g).2.2 = g) := by
  have hv2 : w.villagers.getD vk World.dummyVillager = v := by
    unfold SMap.getD
    rw [hv]
    rfl
  have hs2 : w.satiation.getD vk 0 = s := by
    unfold SMap.getD
    rw [hs]
    rfl
  refine ⟨villager_harvested_world w vk g, ?_, ?_, ?_⟩
  · intro hneed hne
    have hlen : 0 < w.farms.values.length := List.length_pos.mpr hne
    have hc1 : (decide (s < 5) && decide (w.ticks - v.last_ate < 40)) = true := by
      simp only [Bool.and_eq_true, decide_eq_true_eq]
      exact ⟨hneed.1, hneed.2⟩
    have hc2 : decide (0 < w.farms.values.length) = true := by simp [hlen]
    refine ⟨w.farms.values.getD (g 0 % w.farms.values.length) World.dummyFarm,
      listGetD_mem _ _ _ (Nat.mod_lt _ hlen), rfl, ?_⟩
    simp only [World.villager_harvested, hv2, hs2, genRange, hc1, hc2, if_true]
  · intro hneed hempty
    have hc1 : (decide (s < 5) && decide (w.ticks - v.last_ate < 40)) = true := by
      simp only [Bool.and_eq_true, decide_eq_true_eq]
      exact ⟨hneed.1, hneed.2⟩
    have hc2 : decide (0 < w.farms.values.length) = false := by simp [hempty]
    simp only [World.villager_harvested, hv2, hs2, hc1, hc2, if_true]
    exact ⟨rfl, rfl⟩
  · intro hnneed
    have hc1 : (decide (s < 5) && decide (w.ticks - v.last_ate < 40)) = false := by
      by_cases h5 : s < 5
      · by_cases h40 : w.ticks - v.last_ate < 40
        · exact absurd ⟨h5, h40⟩ hnneed
        · simp [h40]
      · simp [h5]
    simp only [World.villager_harvested, hv2, hs2, hc1]
    exact ⟨rfl, rfl⟩

/-- Witness for C8: the freshly seeded villager needs to eat and a farm
exists, applied through the theorem. -/
theorem c8_villager_harvested_policy_witness :
    (World.new.villager_harvested 0 zeros).1 = World.new :=
  (c8_villager_harvested_policy World.new 0 zeros ⟨1, 0, 0⟩ 1 (by decide) (by decide)).1

/-! ## Claim C4 -/

/-- C4: `tick()` increments the tick counter; exactly when
`(tick + 1) % 20 == 0` for the incremented counter it runs the cascade,
which — because the stack is LIFO and the batch is pushed in the literal
order `VillagersMoved`, `VillagersFarmed`, `FarmsCultivated`,
`GravesCleared` — takes effect as `GravesCleared` first, then all farm
growth, then all harvesting, and all villager movement last (the `cascade`
pipeline). -/
theorem c4_tick_scheduler :
    (∀ (w : World) (g : RNG), (World.tick w g).1.ticks = w.ticks + 1) ∧
    (∀ (w : World) (g : RNG), (w.ticks + 2) % 20 ≠ 0 →
      World.tick w g = ({ w with ticks := w.ticks + 1 }, g)) ∧
    (∀ (w : World) (g : RNG), w.events = [] → (w.ticks + 2) % 20 = 0 →
      World.tick w g = cascade ({ w with ticks := w.ticks + 1 }) g) :=
  ⟨tick_ticks, tick_nonboundary, tick_boundary⟩

/-- Witness for C4 at concrete inputs on both sides of the boundary. -/
theorem c4_tick_scheduler_witness :
    ((World.new.ticks + 2) % 20 ≠ 0 ∧
      World.tick World.new zeros = ({ World.new with ticks := World.new.ticks + 1 }, zeros)) ∧
    (c1Start.ticks + 2) % 20 ≠ 0 ∧
      World.tick c1Start zeros = ({ c1Start with ticks := c1Start.ticks + 1 }, zeros) :=
  ⟨⟨by decide, c4_tick_scheduler.2.1 World.new zeros (by decide)⟩,
   by decide, c4_tick_scheduler.2.1 c1Start zeros (by decide)⟩

/-! ## Claim C5 -/

/-- C5: every cascade from a reachable world terminates — the dispatch loop
started on the canonical batch reaches an empty stack within the declared
fuel — and structurally no handler enqueues an event whose rank is not
strictly below its own, so no batch kind can re-enqueue itself. -/
theorem c5_cascade_termination :
    (∀ w : World, Reachable w → ∀ g : RNG, ∃ n : ℕ,
      (World.processFuel n ({ w with events :=
        WorldEvent.GravesCleared :: WorldEvent.FarmsCultivated ::
        WorldEvent.VillagersFarmed :: WorldEvent.VillagersMoved :: w.events }) g).1.events
        = []) ∧
    (∀ (w : World) (e : WorldEvent) (g : RNG) (e2 : WorldEvent),
      e2 ∈ (World.handle w e g).2.1 → rank e2 < rank e) := by
  constructor
  · intro w hr g
    refine ⟨World.fuelBound w, ?_⟩
    have he := reachable_events_nil w hr
    have hc := advance_world_eq_cascade w g he
    show (World.advance_world w g).1.events = []
    rw [hc.1]
    exact hc.2
  · intro w e g e2 he2
    cases e with
    | VillagerMoved k d => exact absurd he2 (List.not_mem_nil e2)
    | VillagerAte k => exact absurd he2 (List.not_mem_nil e2)
    | VillagerHungered k =>
      have hh : (World.handle w (WorldEvent.VillagerHungered k) g).2.1 =
          (w.villager_hungered k).2 := rfl
      rw [hh] at he2
      rcases villager_hungered_shape w k with hd | hd <;> rw [hd] at he2
      · exact absurd he2 (List.not_mem_nil e2)
      · rw [List.mem_singleton] at he2
        subst he2
        simp [rank]
    | FarmGrew k =>
      have hh : (World.handle w (WorldEvent.FarmGrew k) g).2.1 =
          (w.farm_grew k g).2.1 := rfl
      rw [hh] at he2
      rcases farm_grew_shape w k g with hd | ⟨c, hd⟩ <;> rw [hd] at he2
      · exact absurd he2 (List.not_mem_nil e2)
      · rw [List.mem_singleton] at he2
        subst he2
        simp [rank]
    | FarmHarvested k => exact absurd he2 (List.not_mem_nil e2)
    | VillagerDied vk => exact absurd he2 (List.not_mem_nil e2)
    | FarmAdded c => exact absurd he2 (List.not_mem_nil e2)
    | VillagerHarvested vk =>
      have hh : (World.handle w (WorldEvent.VillagerHarvested vk) g).2.1 =
          (w.villager_harvested vk g).2.1 := rfl
      rw [hh] at he2
      rcases villager_harvested_shape w vk g with hd | hd | ⟨fk, hd⟩ <;> rw [hd] at he2
      · exact absurd he2 (List.not_mem_nil e2)
      · rw [List.mem_singleton] at he2
        subst he2
        simp [rank]
      · rcases List.mem_cons.mp he2 with rfl | he3
        · simp [rank]
        · rw [List.mem_singleton] at he3
          subst he3
          simp [rank]
    | GravesCleared => exact absurd he2 (List.not_mem_nil e2)
    | FarmsCultivated =>
      have hh : (World.handle w WorldEvent.FarmsCultivated g).2.1 =
          w.farms.values.map (fun f => WorldEvent.FarmGrew f.key) := rfl
      rw [hh] at he2
      obtain ⟨f, _, rfl⟩ := List.mem_map.mp he2
      simp [rank]
    | VillagersFarmed =>
      have hh : (World.handle w WorldEvent.VillagersFarmed g).2.1 =
          w.villagers.keys.map (fun k => WorldEvent.VillagerHarvested k) := rfl
      rw [hh] at he2
      obtain ⟨k, _, rfl⟩ := List.mem_map.mp he2
      simp [rank]
    | VillagersMoved =>
      have hh : (World.handle w WorldEvent.VillagersMoved g).2.1 =
          (w.villagers_moved g).1 := rfl
      rw [hh] at he2
      obtain ⟨k, d, rfl, _⟩ := villagers_moved_shape w g e2 he2
      simp [rank]

/-- Witness for C5: the termination conjunct applied at the seeded world. -/
theorem c5_cascade_termination_witness :
    ∃ n : ℕ,
      (World.processFuel n ({ World.new with events :=
        WorldEvent.GravesCleared :: WorldEvent.FarmsCultivated ::
        WorldEvent.VillagersFarmed :: WorldEvent.VillagersMoved :: World.new.events })
        zeros).1.events = [] :=
  c5_cascade_termination.1 World.new Reachable.new zeros

/-! ## Claim C2 -/

theorem handle_villagers_not_mem (w : World) (e : WorldEvent) (g : RNG) (k : ℕ)
    (h : k ∉ w.villagers.keys) : k ∉ (World.handle w e g).1.villagers.keys := by
  cases e with
  | VillagerMoved k2 d => exact h
  | VillagerAte k2 =>
    have hv : (World.handle w (WorldEvent.VillagerAte k2) g).1.villagers.keys =
        w.villagers.keys := by
      show (w.villagers.mapAt k2 (fun v => { v with last_ate := w.ticks })).keys = _
      exact SMap.keys_mapAt _ _ _
    rw [hv]
    exact h
  | VillagerHungered k2 =>
    have hv : (World.handle w (WorldEvent.VillagerHungered k2) g).1.villagers.keys =
        w.villagers.keys := by
      have hh : (World.handle w (WorldEvent.VillagerHungered k2) g).1 =
          (w.villager_hungered k2).1 := rfl
      rw [hh]
      unfold World.villager_hungered
      split_ifs
      · show (w.villagers.mapAt k2 (fun v => { v with last_ate := w.ticks })).keys = _
        exact SMap.keys_mapAt _ _ _
      · rfl
    rw [hv]
    exact h
  | FarmGrew k2 =>
    have hv := (farm_grew_fields w k2 g).2.1
    have hh : (World.handle w (WorldEvent.FarmGrew k2) g).1 =
        (w.farm_grew k2 g).1 := rfl
    rw [hh, hv]
    exact h
  | FarmHarvested k2 => exact h
  | VillagerDied vk =>
    show k ∉ (w.villagers.remove vk).keys
    intro hmem
    exact h ((SMap.mem_keys_remove _ _ _).mp hmem).1
  | FarmAdded c => exact h
  | VillagerHarvested vk =>
    have hh : (World.handle w (WorldEvent.VillagerHarvested vk) g).1 = w := by
      have := villager_harvested_world w vk g
      exact this
    rw [hh]
    exact h
  | GravesCleared => exact h
  | FarmsCultivated => exact h
  | VillagersFarmed => exact h
  | VillagersMoved => exact h

theorem processFuel_villager_stays_dead (n : ℕ) (w : World) (g : RNG) (k : ℕ)
    (h : k ∉ w.villagers.keys) :
    k ∉ (World.processFuel n w g).1.villagers.keys := by
  induction n generalizing w g with
  | zero => exact h
  | succ n ih =>
    cases hw : w.events with
    | nil =>
      rw [processFuel_nil (n + 1) w g hw]
      exact h
    | cons e rest =>
      rw [processFuel_step n w g e rest hw]
      apply ih
      show k ∉ (World.handle w e g).1.villagers.keys
      exact handle_villagers_not_mem w e g k h

/-- While a `VillagerDied(k)` event is pending, the cascade cannot quiesce
without removing villager `k`: no handler ever inserts a villager. -/
theorem processFuel_died_pending (n : ℕ) (w : World) (g : RNG) (k : ℕ)
    (hin : WorldEvent.VillagerDied k ∈ w.events)
    (hq : (World.processFuel n w g).1.events = []) :
    k ∉ (World.processFuel n w g).1.villagers.keys := by
  induction n generalizing w g with
  | zero =>
    exfalso
    have hq2 : w.events = [] := hq
    rw [hq2] at hin
    exact List.not_mem_nil _ hin
  | succ n ih =>
    cases hw : w.events with
    | nil =>
      exfalso
      rw [hw] at hin
      exact List.not_mem_nil _ hin
    | cons e rest =>
      rw [processFuel_step n w g e rest hw] at hq ⊢
      by_cases hek : e = WorldEvent.VillagerDied k
      · subst hek
        apply processFuel_villager_stays_dead
        show k ∉ (World.handle w (WorldEvent.VillagerDied k) g).1.villagers.keys
        show k ∉ (w.villagers.remove k).keys
        exact SMap.not_mem_keys_remove_self w.villagers k
      · refine ih _ _ ?_ hq
        rw [setEvents_events]
        apply List.mem_append_right
        rw [hw] at hin
        rcases List.mem_cons.mp hin with he | hr
        · exact absurd he.symm hek
        · exact hr

set_option maxRecDepth 1000000 in
set_option maxHeartbeats 4000000 in
/-- C2, counterexample: in a reachable world with ten villagers and three
farms, the cascade of the 19th tick decrements villager 4's satiation from
1 to 0 (it hungers with no farm left), yet villager 4 is still alive when
that cascade quiesces — decrementing to zero does not cause death in the
same cascade. -/
theorem c2_counterexample :
    (tickN 18 crowdedWorld zeros).1.satiation.getD 4 99 = 1 ∧
    (tickN 19 crowdedWorld zeros).1.satiation.getD 4 99 = 0 ∧
    4 ∈ (tickN 19 crowdedWorld zeros).1.villagers.keys ∧
    (tickN 19 crowdedWorld zeros).1.events = [] ∧
    4 ∉ (tickN 39 crowdedWorld zeros).1.villagers.keys := by
  refine ⟨by decide, by decide, by decide, by decide, by decide⟩

/-- C2 (amended): satiation is an unsigned count that is only decremented
when positive, so it can never go negative; but a decrement that reaches
zero does not kill the villager in that cascade.  Instead, when a villager
hungers while its satiation is already zero, `VillagerDied` is enqueued
(leaving the world unchanged), a death marker is created at the villager's
coordinate the moment the died event runs, and the villager is guaranteed
to be gone by the time that same cascade quiesces. -/
theorem c2_amended_death_semantics :
    (∀ (w : World) (k : ℕ) (s : ℕ), w.satiation.get? k = some s → 0 < s →
      (w.villager_hungered k).1.satiation.getD k 0 = s - 1 ∧
      (w.villager_hungered k).2 = []) ∧
    (∀ (w : World) (k : ℕ), w.satiation.getD k 0 = 0 →
      (w.villager_hungered k).1 = w ∧
      (w.villager_hungered k).2 = [WorldEvent.VillagerDied k]) ∧
    (∀ (w : World) (k : ℕ),
      (w.villager_died k).death_markers.get? w.next_key = some ⟨w.next_key⟩ ∧
      (w.villager_died k).coords.get? w.next_key = some (w.coords.getD k (0, 0)) ∧
      k ∉ (w.villager_died k).villagers.keys) ∧
    (∀ (n : ℕ) (w : World) (g : RNG) (k : ℕ),
      WorldEvent.VillagerDied k ∈ w.events →
      (World.processFuel n w g).1.events = [] →
      k ∉ (World.processFuel n w g).1.villagers.keys) := by
  refine ⟨?_, ?_, ?_, processFuel_died_pending⟩
  · intro w k s hsk hpos
    have hs0 : (0 < w.satiation.getD k 0) := by
      unfold SMap.getD
      rw [hsk]
      exact hpos
    unfold World.villager_hungered
    rw [if_pos hs0]
    constructor
    · show (w.satiation.mapAt k (fun s => s - 1)).getD k 0 = s - 1
      rw [SMap.getD_mapAt_self w.satiation k _ s 0 hsk]
    · rfl
  · intro w k hz
    unfold World.villager_hungered
    rw [if_neg (by rw [hz]; exact lt_irrefl 0)]
    exact ⟨rfl, rfl⟩
  · intro w k
    refine ⟨?_, ?_, ?_⟩
    · show (w.death_markers.insert w.next_key ⟨w.next_key⟩).get? w.next_key = _
      rw [SMap.get?_insert, if_pos rfl]
    · show (w.coords.insert w.next_key (w.coords.getD k (0, 0))).get? w.next_key = _
      rw [SMap.get?_insert, if_pos rfl]
    · exact SMap.not_mem_keys_remove_self w.villagers k

/-- Witness for C2 (amended) at concrete inputs: a positive-satiation
decrement, a zero-satiation death enqueue, a death-marker creation, and a
pending died event resolved before quiescence. -/
theorem c2_amended_death_semantics_witness :
    ((World.new.villager_hungered 0).1.satiation.getD 0 0 = 0 ∧
      (World.new.villager_hungered 0).2 = []) ∧
    4 ∉ (World.processFuel 1 ({ World.new with
      events := [WorldEvent.VillagerDied 4] }) zeros).1.villagers.keys :=
  ⟨by
    have h := c2_amended_death_semantics.1 World.new 0 1 (by decide) (by decide)
    exact h,
   c2_amended_death_semantics.2.2.2 1
     ({ World.new with events := [WorldEvent.VillagerDied 4] }) zeros 4
     (by decide) (by decide)⟩

/-! ## Claim C3 -/

theorem farm_grew_coords_farms_keys (w : World) (k : ℕ) (g : RNG) :
    (w.farm_grew k g).1.coords = w.coords ∧
    (w.farm_grew k g).1.farms.keys = w.farms.keys := by
  simp only [World.farm_grew]
  split_ifs <;> constructor <;>
    first
      | rfl
      | (show (w.farms.mapAt k (fun f => { f with last_grew := w.ticks })).keys =
            w.farms.keys
         exact SMap.keys_mapAt _ _ _)

/-- No handler removes a coordinate entry of a live key: every handler
preserves the invariant that each live villager, farm and death-marker key
has a coordinate entry. -/
theorem handle_LHC (w : World) (e : WorldEvent) (g : RNG)
    (h : LiveHasCoords w) : LiveHasCoords (World.handle w e g).1 := by
  cases e with
  | VillagerMoved key dir =>
    intro k hk
    have hX : (World.handle w (WorldEvent.VillagerMoved key dir) g).1 =
        w.villager_moved key dir := rfl
    rw [hX] at hk ⊢
    simp only [World.villager_moved] at hk ⊢
    rw [SMap.keys_mapAt]
    exact h k hk
  | VillagerAte key =>
    intro k hk
    have hX : (World.handle w (WorldEvent.VillagerAte key) g).1 =
        w.villager_ate key := rfl
    rw [hX] at hk ⊢
    simp only [World.villager_ate] at hk ⊢
    rw [SMap.keys_mapAt] at hk
    exact h k hk
  | VillagerHungered key =>
    intro k hk
    have hX : (World.handle w (WorldEvent.VillagerHungered key) g).1 =
        (w.villager_hungered key).1 := rfl
    rw [hX] at hk ⊢
    unfold World.villager_hungered at hk ⊢
    split_ifs at hk ⊢
    · dsimp only at hk ⊢
      rw [SMap.keys_mapAt] at hk
      exact h k hk
    · exact h k hk
  | FarmGrew key =>
    intro k hk
    obtain ⟨hc, hfk⟩ := farm_grew_coords_farms_keys w key g
    obtain ⟨-, hv, -, -, hd⟩ := farm_grew_fields w key g
    have hX : (World.handle w (WorldEvent.FarmGrew key) g).1 =
        (w.farm_grew key g).1 := rfl
    rw [hX] at hk ⊢
    rw [hc]
    apply h k
    rcases hk with h1 | h2 | h3
    · left
      rwa [hv] at h1
    · right
      left
      rwa [hfk] at h2
    · right
      right
      rwa [hd] at h3
  | FarmHarvested key =>
    intro k hk
    have hX : (World.handle w (WorldEvent.FarmHarvested key) g).1 =
        w.farm_harvested key := rfl
    rw [hX] at hk ⊢
    simp only [World.farm_harvested] at hk ⊢
    apply h k
    rcases hk with h1 | h2 | h3
    · exact Or.inl h1
    · exact Or.inr (Or.inl ((SMap.mem_keys_remove _ _ _).mp h2).1)
    · exact Or.inr (Or.inr h3)
  | VillagerDied vk =>
    intro k hk
    have hX : (World.handle w (WorldEvent.VillagerDied vk) g).1 =
        w.villager_died vk := rfl
    rw [hX] at hk ⊢
    simp only [World.villager_died] at hk ⊢
    rw [SMap.mem_keys_insert]
    rcases hk with h1 | h2 | h3
    · exact Or.inr (h k (Or.inl ((SMap.mem_keys_remove _ _ _).mp h1).1))
    · exact Or.inr (h k (Or.inr (Or.inl h2)))
    · rcases (SMap.mem_keys_insert _ _ _ _).mp h3 with rfl | h4
      · exact Or.inl rfl
      · exact Or.inr (h k (Or.inr (Or.inr h4)))
  | FarmAdded c =>
    intro k hk
    have hX : (World.handle w (WorldEvent.FarmAdded c) g).1 =
        w.farm_added c := rfl
    rw [hX] at hk ⊢
    simp only [World.farm_added] at hk ⊢
    rw [SMap.mem_keys_insert]
    rcases hk with h1 | h2 | h3
    · exact Or.inr (h k (Or.inl h1))
    · rcases (SMap.mem_keys_insert _ _ _ _).mp h2 with rfl | h4
      · exact Or.inl rfl
      · exact Or.inr (h k (Or.inr (Or.inl h4)))
    · exact Or.inr (h k (Or.inr (Or.inr h3)))
  | VillagerHarvested vk =>
    intro k hk
    have hX : (World.handle w (WorldEvent.VillagerHarvested vk) g).1 = w :=
      villager_harvested_world w vk g
    rw [hX] at hk ⊢
    exact h k hk
  | GravesCleared =>
    intro k hk
    have hX : (World.handle w WorldEvent.GravesCleared g).1 =
        w.graves_cleared := rfl
    rw [hX] at hk ⊢
    simp only [World.graves_cleared] at hk ⊢
    apply h k
    rcases hk with h1 | h2 | h3
    · exact Or.inl h1
    · exact Or.inr (Or.inl h2)
    · exact absurd h3 (List.not_mem_nil _)
  | FarmsCultivated => exact h
  | VillagersFarmed => exact h
  | VillagersMoved => exact h

theorem processFuel_LHC (n : ℕ) (w : World) (g : RNG)
    (h : LiveHasCoords w) : LiveHasCoords (World.processFuel n w g).1 := by
  induction n generalizing w g with
  | zero => exact h
  | succ n ih =>
    cases hw : w.events with
    | nil =>
      rw [processFuel_nil (n + 1) w g hw]
      exact h
    | cons e rest =>
      rw [processFuel_step n w g e rest hw]
      apply ih
      show LiveHasCoords (World.handle w e g).1
      exact handle_LHC w e g h

theorem tick_LHC (w : World) (g : RNG) (h : LiveHasCoords w) :
    LiveHasCoords (World.tick w g).1 := by
  cases hb : ((w.ticks + 1 + 1) % 20 == 0) with
  | false =>
    simp only [World.tick, hb]
    exact h
  | true =>
    simp only [World.tick, hb]
    show LiveHasCoords (World.advance_world { w with ticks := w.ticks + 1 } g).1
    unfold World.advance_world
    exact processFuel_LHC _ _ _ h

theorem add_villager_at_LHC (w : World) (x y : ℕ) (h : LiveHasCoords w) :
    LiveHasCoords (w.add_villager_at x y).1 := by
  intro k hk
  simp only [World.add_villager_at] at hk ⊢
  rw [SMap.mem_keys_insert]
  rcases hk with h1 | h2 | h3
  · rcases (SMap.mem_keys_insert _ _ _ _).mp h1 with rfl | h4
    · exact Or.inl rfl
    · exact Or.inr (h k (Or.inl h4))
  · exact Or.inr (h k (Or.inr (Or.inl h2)))
  · exact Or.inr (h k (Or.inr (Or.inr h3)))

theorem add_farm_at_LHC (w : World) (x y : ℕ) (h : LiveHasCoords w) :
    LiveHasCoords (w.add_farm_at x y).1 := by
  intro k hk
  simp only [World.add_farm_at] at hk ⊢
  rw [SMap.mem_keys_insert]
  rcases hk with h1 | h2 | h3
  · exact Or.inr (h k (Or.inl h1))
  · rcases (SMap.mem_keys_insert _ _ _ _).mp h2 with rfl | h4
    · exact Or.inl rfl
    · exact Or.inr (h k (Or.inr (Or.inl h4)))
  · exact Or.inr (h k (Or.inr (Or.inr h3)))

theorem new_LHC : LiveHasCoords World.new := by
  intro k hk
  have hv : World.new.villagers.keys = [0] := rfl
  have hf : World.new.farms.keys = [1, 2, 3] := rfl
  have hd : World.new.death_markers.keys = ([] : List ℕ) := rfl
  have hc : World.new.coords.keys = [0, 1, 2, 3] := rfl
  rw [hc]
  rw [hv, hf, hd] at hk
  rcases hk with h1 | h2 | h3
  · simp only [List.mem_singleton] at h1
    subst h1
    decide
  · simp only [List.mem_cons, List.mem_singleton, List.not_mem_nil, or_false]
      at h2
    rcases h2 with rfl | rfl | rfl <;> decide
  · exact absurd h3 (List.not_mem_nil _)

theorem reachable_LHC (w : World) (hr : Reachable w) : LiveHasCoords w := by
  induction hr with
  | new => exact new_LHC
  | tick w g _ ih => exact tick_LHC w g ih
  | add_villager_at w x y _ ih => exact add_villager_at_LHC w x y ih
  | add_farm_at w x y _ ih => exact add_farm_at_LHC w x y ih

set_option maxRecDepth 1000000 in
set_option maxHeartbeats 4000000 in
/-- C3, counterexample: removing an entity does NOT remove its coordinate
entry.  Processing `VillagerDied(0)` on the initial world removes villager 0
but leaves its coordinate entry `(4,4)` in place; and in the reachable world
after 19 ticks the farm with key 1 has been removed by `FarmHarvested`, yet
its coordinate entry `(5,4)` is still present. -/
theorem c3_counterexample :
    (SMap.get? (World.new.villager_died 0).villagers 0 = none ∧
      SMap.get? (World.new.villager_died 0).coords 0 = some (4, 4)) ∧
    (SMap.get? (tickN 19 World.new zeros).1.farms 1 = none ∧
      SMap.get? (tickN 19 World.new zeros).1.coords 1 = some (5, 4)) := by
  exact ⟨⟨by decide, by decide⟩, ⟨by decide, by decide⟩⟩

/-- C3 (amended): the removal operations never delete coordinate entries.
`villager_died` leaves the dead villager's entry in place and only inserts a
fresh entry for the death marker at the villager's last coordinate;
`farm_harvested` and `graves_cleared` leave the coordinate map untouched,
so removed keys retain stale entries.  The live half of the invariant does
hold: in every reachable world, every live villager, farm and death-marker
key has a coordinate entry, because entries are inserted at every creation
and never removed. -/
theorem c3_amended_coords_persistence :
    (∀ (w : World) (vk : ℕ),
      (w.villager_died vk).coords =
        w.coords.insert w.next_key (w.coords.getD vk (0, 0))) ∧
    (∀ (w : World) (k : ℕ), (w.farm_harvested k).coords = w.coords) ∧
    (∀ w : World, w.graves_cleared.coords = w.coords) ∧
    (∀ w : World, Reachable w → LiveHasCoords w) :=
  ⟨fun _ _ => rfl, fun _ _ => rfl, fun _ => rfl, reachable_LHC⟩

/-- Witness for C3 (amended) at a concrete input: in the reachable world
`World::new`, the live farm key 3 has a coordinate entry. -/
theorem c3_amended_coords_persistence_witness :
    3 ∈ World.new.coords.keys := by
  have h := c3_amended_coords_persistence.2.2.2 World.new Reachable.new
  exact h 3 (Or.inr (Or.inl (by decide)))

/-! ## Claim C7: growth mechanism and farm-coordinate uniqueness -/

theorem SMap.get?_append_some {α : Type} (m m2 : SMap α) (x : ℕ) (v : α)
    (h : SMap.get? m x = some v) : SMap.get? (m ++ m2) x = some v := by
  induction m with
  | nil => simp [SMap.get?] at h
  | cons p t ih =>
    rw [List.cons_append]
    rw [SMap.get?_cons] at h ⊢
    split_ifs at h ⊢ with hp
    · exact h
    · exact ih h

theorem SMap.keys_insert_fresh {α : Type} (m : SMap α) (k : ℕ) (v : α)
    (h : k ∉ m.keys) : (m.insert k v).keys = m.keys ++ [k] := by
  have hc : ¬ (m.contains k = true) := fun hc =>
    h ((SMap.contains_iff_mem_keys m k).1 hc)
  rw [SMap.keys_insert, if_neg hc]

theorem foldl_filter_mem {α β : Type} (p : β → α → Bool) (ks : List β)
    (l0 : List α) (x : α)
    (hx : x ∈ ks.foldl (fun acc k => acc.filter (p k)) l0) :
    x ∈ l0 ∧ ∀ k ∈ ks, p k x = true := by
  induction ks generalizing l0 with
  | nil => exact ⟨hx, by simp⟩
  | cons k ks ih =>
    rw [List.foldl_cons] at hx
    obtain ⟨h1, h2⟩ := ih _ hx
    obtain ⟨h3, h4⟩ := List.mem_filter.mp h1
    refine ⟨h3, ?_⟩
    intro k2 hk2
    rcases List.mem_cons.mp hk2 with rfl | hk2
    · exact h4
    · exact h2 k2 hk2

/-- A cell reached by a permitted single step from `fc` is orthogonally
adjacent to `fc`, stays in the interior when `fc` is interior, and stays in
the grid when `fc` is in the grid. -/
theorem coords_after_move_can (fc : Coords) (d : Direction)
    (hcan : can_move_in_dir fc d = true) :
    adjacentCell fc (coords_after_move fc d) ∧
    (interior fc → interior (coords_after_move fc d)) ∧
    (in_grid_spec fc → in_grid_spec (coords_after_move fc d)) := by
  cases d with
  | Up =>
    simp only [can_move_in_dir, decide_eq_true_eq] at hcan
    simp only [coords_after_move, if_pos hcan]
    unfold adjacentCell interior in_grid_spec GRID_WIDTH GRID_HEIGHT
    dsimp only
    omega
  | Down =>
    simp only [can_move_in_dir, decide_eq_true_eq] at hcan
    simp only [coords_after_move]
    unfold GRID_HEIGHT at hcan ⊢
    rw [if_pos hcan]
    unfold adjacentCell interior in_grid_spec GRID_WIDTH GRID_HEIGHT
    dsimp only
    omega
  | Left =>
    simp only [can_move_in_dir, decide_eq_true_eq] at hcan
    simp only [coords_after_move, if_pos hcan]
    unfold adjacentCell interior in_grid_spec GRID_WIDTH GRID_HEIGHT
    dsimp only
    omega
  | Right =>
    simp only [can_move_in_dir, decide_eq_true_eq] at hcan
    simp only [coords_after_move]
    unfold GRID_WIDTH at hcan ⊢
    rw [if_pos hcan]
    unfold adjacentCell interior in_grid_spec GRID_WIDTH GRID_HEIGHT
    dsimp only
    omega

/-- Every cell in the candidate list is adjacent to the growing farm,
respects the interior and the grid, and avoids every cell occupied by a
farm of `ks`. -/
theorem growthCandidates_mem (fc : Coords) (ks : List ℕ) (cm : SMap Coords)
    (x : Coords) (hx : x ∈ growthCandidates fc ks cm) :
    adjacentCell fc x ∧ (interior fc → interior x) ∧
    (in_grid_spec fc → in_grid_spec x) ∧
    ∀ fk ∈ ks, x ≠ SMap.getD cm fk (0, 0) := by
  unfold growthCandidates at hx
  obtain ⟨h1, h2⟩ := foldl_filter_mem _ _ _ _ hx
  obtain ⟨d, hd, rfl⟩ := List.mem_map.mp h1
  obtain ⟨hd1, hd2⟩ := List.mem_filter.mp hd
  obtain ⟨a1, a2, a3⟩ := coords_after_move_can fc d hd2
  refine ⟨a1, a2, a3, ?_⟩
  intro fk hfk
  have h3 := h2 fk hfk
  simpa using h3

/-- `farm_grew`, re-expressed through `growthCandidates` over the original
world (the cooldown-stamp update changes neither the farm keys nor the
coordinate map). -/
theorem farm_grew_eq (w : World) (k : ℕ) (g : RNG) :
    w.farm_grew k g =
      if w.ticks - (w.farms.getD k World.dummyFarm).last_grew < 20 then (w, [], g)
      else
        let w1 : World := { w with
          farms := w.farms.mapAt k (fun f => { f with last_grew := w.ticks }) }
        let cands := growthCandidates (w.coords.getD k (0, 0)) w.farms.keys w.coords
        if cands.length == 0 then (w1, [], g)
        else
          (w1, [WorldEvent.FarmAdded (cands.getD (g 0 % cands.length) (0, 0))],
            g.shift) := by
  have hk : (w.farms.mapAt k (fun f => { f with last_grew := w.ticks })).keys =
      w.farms.keys := SMap.keys_mapAt _ _ _
  simp only [World.farm_grew, growthCandidates, genRange, hk]

theorem farm_grew_next_key (w : World) (k : ℕ) (g : RNG) :
    (w.farm_grew k g).1.next_key = w.next_key := by
  simp only [World.farm_grew]
  split_ifs <;> rfl

/-- Mechanism of growth: when `farm_grew` enqueues `FarmAdded c`, the cell
`c` is orthogonally adjacent to the farm, stays in the interior (resp. the
grid) when the farm is there, and is not occupied by any existing farm. -/
theorem farm_grew_mechanism (w : World) (k : ℕ) (g : RNG) (c : Coords)
    (h : (w.farm_grew k g).2.1 = [WorldEvent.FarmAdded c]) :
    adjacentCell (w.coords.getD k (0, 0)) c ∧
    (interior (w.coords.getD k (0, 0)) → interior c) ∧
    (in_grid_spec (w.coords.getD k (0, 0)) → in_grid_spec c) ∧
    ∀ fk ∈ w.farms.keys, c ≠ w.coords.getD fk (0, 0) := by
  rw [farm_grew_eq] at h
  by_cases h1 : w.ticks - (w.farms.getD k World.dummyFarm).last_grew < 20
  · rw [if_pos h1] at h
    exact absurd h (by simp)
  · rw [if_neg h1] at h
    dsimp only at h
    by_cases h2 :
      ((growthCandidates (w.coords.getD k (0, 0)) w.farms.keys
          w.coords).length == 0) = true
    · rw [if_pos h2] at h
      exact absurd h (by simp)
    · rw [if_neg h2] at h
      dsimp only at h
      injection h with h3 h4
      injection h3 with h5
      subst h5
      have hlen :
          (growthCandidates (w.coords.getD k (0, 0)) w.farms.keys
            w.coords).length ≠ 0 := by
        simpa using h2
      have hmem :=
        listGetD_mem
          (growthCandidates (w.coords.getD k (0, 0)) w.farms.keys w.coords)
          (g 0 %
            (growthCandidates (w.coords.getD k (0, 0)) w.farms.keys
              w.coords).length)
          (0, 0) (Nat.mod_lt _ (Nat.pos_of_ne_zero hlen))
      obtain ⟨a1, a2, a3, a4⟩ := growthCandidates_mem _ _ _ _ hmem
      exact ⟨a1, a2, a3, a4⟩

/-! ## WF and farm-coordinate distinctness through the handlers -/

theorem farmCoords_eq_of (w' w : World) (hf : w'.farms.keys = w.farms.keys)
    (hc : w'.coords = w.coords) : farmCoords w' = farmCoords w := by
  unfold farmCoords
  rw [hf, hc]

theorem farmCoords_villager_moved (w : World) (vk : ℕ) (d : Direction)
    (h : vk ∉ w.farms.keys) :
    farmCoords (w.villager_moved vk d) = farmCoords w := by
  show w.farms.keys.map
      (fun fk => (w.coords.mapAt vk (fun c => coords_after_move c d)).getD fk (0, 0)) =
    w.farms.keys.map (fun fk => w.coords.getD fk (0, 0))
  apply List.map_congr_left
  intro fk hfk
  exact SMap.getD_mapAt_ne _ _ _ _ _ (fun he => h (he ▸ hfk))

theorem farmCoords_villager_died (w : World) (vk : ℕ) (hWF : WF w) :
    farmCoords (w.villager_died vk) = farmCoords w := by
  show w.farms.keys.map
      (fun fk =>
        (w.coords.insert w.next_key (w.coords.getD vk (0, 0))).getD fk (0, 0)) =
    w.farms.keys.map (fun fk => w.coords.getD fk (0, 0))
  apply List.map_congr_left
  intro fk hfk
  exact SMap.getD_insert_ne _ _ _ _ _ (Nat.ne_of_lt (hWF.2.1 fk hfk))

theorem farmCoords_farm_harvested_sublist (w : World) (k : ℕ) :
    List.Sublist (farmCoords (w.farm_harvested k)) (farmCoords w) := by
  show List.Sublist
    ((w.farms.remove k).keys.map (fun fk => w.coords.getD fk (0, 0)))
    (w.farms.keys.map (fun fk => w.coords.getD fk (0, 0)))
  rw [SMap.keys_remove]
  exact List.Sublist.map _ (List.filter_sublist _)

theorem farmCoords_farm_added (w : World) (c : Coords) (hWF : WF w) :
    farmCoords (w.farm_added c) = farmCoords w ++ [c] := by
  have hffresh : w.next_key ∉ w.farms.keys := fun hm =>
    absurd (hWF.2.1 _ hm) (lt_irrefl _)
  have hfk : (w.farm_added c).farms.keys = w.farms.keys ++ [w.next_key] := by
    show (w.farms.insert w.next_key
        (Farm.new (w.last_id + 1) w.next_key c.1 c.2 w.ticks)).keys = _
    exact SMap.keys_insert_fresh _ _ _ hffresh
  show (w.farm_added c).farms.keys.map
      (fun fk => (w.coords.insert w.next_key c).getD fk (0, 0)) = _
  rw [hfk, List.map_append]
  congr 1
  · apply List.map_congr_left
    intro fk hfkm
    exact SMap.getD_insert_ne _ _ _ _ _ (Nat.ne_of_lt (hWF.2.1 fk hfkm))
  · show [(w.coords.insert w.next_key c).getD w.next_key (0, 0)] = [c]
    rw [SMap.getD_insert_self]

theorem WF_graves_cleared (w : World) (h : WF w) : WF w.graves_cleared := by
  obtain ⟨h1, h2, h3, h4, h5, h6, h7, h8⟩ := h
  exact ⟨h1, h2, h3, fun k hk => absurd hk (List.not_mem_nil _), h5, h6, h7, h8⟩

theorem WF_villager_ate (w : World) (k : ℕ) (h : WF w) : WF (w.villager_ate k) := by
  unfold WF at h ⊢
  simp only [World.villager_ate, SMap.keys_mapAt]
  exact h

theorem WF_villager_hungered (w : World) (k : ℕ) (h : WF w) :
    WF (w.villager_hungered k).1 := by
  unfold WF at h ⊢
  unfold World.villager_hungered
  split_ifs
  · dsimp only
    simp only [SMap.keys_mapAt]
    exact h
  · exact h

theorem WF_farm_grew (w : World) (k : ℕ) (g : RNG) (h : WF w) :
    WF (w.farm_grew k g).1 := by
  obtain ⟨hc, hfk⟩ := farm_grew_coords_farms_keys w k g
  obtain ⟨-, hv, -, -, hd⟩ := farm_grew_fields w k g
  have hnk := farm_grew_next_key w k g
  unfold WF at h ⊢
  rw [hc, hfk, hv, hd, hnk]
  exact h

theorem WF_farm_harvested (w : World) (k : ℕ) (h : WF w) :
    WF (w.farm_harvested k) := by
  obtain ⟨h1, h2, h3, h4, h5, h6, h7, h8⟩ := h
  have hfk : (w.farm_harvested k).farms.keys =
      w.farms.keys.filter (fun x => decide (x ≠ k)) := SMap.keys_remove _ _
  unfold WF
  rw [hfk]
  exact ⟨h1, fun k2 hk2 => h2 k2 (List.mem_filter.mp hk2).1, h3, h4, h5,
    h6.filter _, h7, fun k2 hk2 => h8 k2 (List.mem_filter.mp hk2).1⟩

theorem WF_villager_died (w : World) (vk : ℕ) (h : WF w) :
    WF (w.villager_died vk) := by
  obtain ⟨h1, h2, h3, h4, h5, h6, h7, h8⟩ := h
  have hcfresh : w.next_key ∉ w.coords.keys := fun hm =>
    absurd (h1 _ hm) (lt_irrefl _)
  have hdfresh : w.next_key ∉ w.death_markers.keys := fun hm =>
    absurd (h4 _ hm) (lt_irrefl _)
  have hck : (w.villager_died vk).coords.keys = w.coords.keys ++ [w.next_key] := by
    show (w.coords.insert w.next_key (w.coords.getD vk (0, 0))).keys = _
    exact SMap.keys_insert_fresh _ _ _ hcfresh
  have hdk : (w.villager_died vk).death_markers.keys =
      w.death_markers.keys ++ [w.next_key] := by
    show (w.death_markers.insert w.next_key ⟨w.next_key⟩).keys = _
    exact SMap.keys_insert_fresh _ _ _ hdfresh
  have hvk : (w.villager_died vk).villagers.keys =
      w.villagers.keys.filter (fun x => decide (x ≠ vk)) := by
    show (w.villagers.remove vk).keys = _
    exact SMap.keys_remove _ _
  have hfks : (w.villager_died vk).farms = w.farms := rfl
  have hnk : (w.villager_died vk).next_key = w.next_key + 1 := rfl
  unfold WF
  rw [hck, hdk, hvk, hfks, hnk]
  refine ⟨?_, fun k hk => Nat.lt_succ_of_lt (h2 k hk),
    fun k hk => Nat.lt_succ_of_lt (h3 k (List.mem_filter.mp hk).1), ?_, ?_, h6,
    h7.filter _, ?_⟩
  · intro k hk
    rcases List.mem_append.mp hk with hk | hk
    · exact Nat.lt_succ_of_lt (h1 k hk)
    · simp only [List.mem_singleton] at hk
      subst hk
      exact Nat.lt_succ_self _
  · intro k hk
    rcases List.mem_append.mp hk with hk | hk
    · exact Nat.lt_succ_of_lt (h4 k hk)
    · simp only [List.mem_singleton] at hk
      subst hk
      exact Nat.lt_succ_self _
  · rw [List.nodup_append]
    refine ⟨h5, List.nodup_singleton _, ?_⟩
    intro a ha hb
    simp only [List.mem_singleton] at hb
    subst hb
    exact hcfresh ha
  · intro k hk hmem
    exact h8 k hk (List.mem_filter.mp hmem).1

theorem WF_farm_added (w : World) (c : Coords) (h : WF w) :
    WF (w.farm_added c) := by
  obtain ⟨h1, h2, h3, h4, h5, h6, h7, h8⟩ := h
  have hcfresh : w.next_key ∉ w.coords.keys := fun hm =>
    absurd (h1 _ hm) (lt_irrefl _)
  have hffresh : w.next_key ∉ w.farms.keys := fun hm =>
    absurd (h2 _ hm) (lt_irrefl _)
  have hck : (w.farm_added c).coords.keys = w.coords.keys ++ [w.next_key] := by
    show (w.coords.insert w.next_key c).keys = _
    exact SMap.keys_insert_fresh _ _ _ hcfresh
  have hfk : (w.farm_added c).farms.keys = w.farms.keys ++ [w.next_key] := by
    show (w.farms.insert w.next_key
        (Farm.new (w.last_id + 1) w.next_key c.1 c.2 w.ticks)).keys = _
    exact SMap.keys_insert_fresh _ _ _ hffresh
  unfold WF
  rw [hck, hfk]
  refine ⟨?_, ?_, fun k hk => Nat.lt_succ_of_lt (h3 k hk),
    fun k hk => Nat.lt_succ_of_lt (h4 k hk), ?_, ?_, h7, ?_⟩
  · intro k hk
    rcases List.mem_append.mp hk with hk | hk
    · exact Nat.lt_succ_of_lt (h1 k hk)
    · simp only [List.mem_singleton] at hk
      subst hk
      exact Nat.lt_succ_self _
  · intro k hk
    rcases List.mem_append.mp hk with hk | hk
    · exact Nat.lt_succ_of_lt (h2 k hk)
    · simp only [List.mem_singleton] at hk
      subst hk
      exact Nat.lt_succ_self _
  · rw [List.nodup_append]
    refine ⟨h5, List.nodup_singleton _, ?_⟩
    intro a ha hb
    simp only [List.mem_singleton] at hb
    subst hb
    exact hcfresh ha
  · rw [List.nodup_append]
    refine ⟨h6, List.nodup_singleton _, ?_⟩
    intro a ha hb
    simp only [List.mem_singleton] at hb
    subst hb
    exact hffresh ha
  · intro k hk
    rcases List.mem_append.mp hk with hk | hk
    · exact h8 k hk
    · simp only [List.mem_singleton] at hk
      subst hk
      exact fun hm => absurd (h3 _ hm) (lt_irrefl _)

theorem WF_villager_moved (w : World) (k : ℕ) (d : Direction) (h : WF w) :
    WF (w.villager_moved k d) := by
  unfold WF at h ⊢
  simp only [World.villager_moved, SMap.keys_mapAt]
  exact h

theorem FD_villager_ate (w : World) (k : ℕ) (h : FarmsDistinct w) :
    FarmsDistinct (w.villager_ate k) := by
  show (farmCoords (w.villager_ate k)).Nodup
  rw [farmCoords_eq_of (w.villager_ate k) w rfl rfl]
  exact h

theorem FD_villager_hungered (w : World) (k : ℕ) (h : FarmsDistinct w) :
    FarmsDistinct (w.villager_hungered k).1 := by
  obtain ⟨-, -, h3, h4, -⟩ := villager_hungered_fields w k
  show (farmCoords (w.villager_hungered k).1).Nodup
  rw [farmCoords_eq_of _ w (congrArg SMap.keys h3) h4]
  exact h

theorem FD_farm_grew (w : World) (k : ℕ) (g : RNG) (h : FarmsDistinct w) :
    FarmsDistinct (w.farm_grew k g).1 := by
  obtain ⟨hc, hfk⟩ := farm_grew_coords_farms_keys w k g
  show (farmCoords (w.farm_grew k g).1).Nodup
  rw [farmCoords_eq_of _ w hfk hc]
  exact h

theorem FD_farm_harvested (w : World) (k : ℕ) (h : FarmsDistinct w) :
    FarmsDistinct (w.farm_harvested k) :=
  List.Nodup.sublist (farmCoords_farm_harvested_sublist w k) h

theorem FD_villager_died (w : World) (vk : ℕ) (hWF : WF w) (h : FarmsDistinct w) :
    FarmsDistinct (w.villager_died vk) := by
  show (farmCoords (w.villager_died vk)).Nodup
  rw [farmCoords_villager_died w vk hWF]
  exact h

/-! ## Uniqueness through the phases of a cascade -/

theorem growStep_WFD (p : World × RNG) (k : ℕ)
    (h : WF p.1 ∧ FarmsDistinct p.1) :
    WF (growStep p k).1 ∧ FarmsDistinct (growStep p k).1 := by
  obtain ⟨hWF, hFD⟩ := h
  have hWF1 : WF (p.1.farm_grew k p.2).1 := WF_farm_grew _ _ _ hWF
  have hFD1 : FarmsDistinct (p.1.farm_grew k p.2).1 := FD_farm_grew _ _ _ hFD
  rcases farm_grew_shape p.1 k p.2 with hc | ⟨c, hc⟩
  · have hg : (growStep p k).1 = (p.1.farm_grew k p.2).1 := by
      simp [growStep, hc]
    rw [hg]
    exact ⟨hWF1, hFD1⟩
  · have hg : (growStep p k).1 = (p.1.farm_grew k p.2).1.farm_added c := by
      simp [growStep, hc]
    rw [hg]
    have hmech := farm_grew_mechanism p.1 k p.2 c hc
    refine ⟨WF_farm_added _ _ hWF1, ?_⟩
    show (farmCoords ((p.1.farm_grew k p.2).1.farm_added c)).Nodup
    rw [farmCoords_farm_added _ _ hWF1, List.nodup_append]
    refine ⟨hFD1, List.nodup_singleton _, ?_⟩
    intro a ha hb
    simp only [List.mem_singleton] at hb
    subst hb
    obtain ⟨fk, hfk, hval⟩ := List.mem_map.mp ha
    have hkeys := (farm_grew_coords_farms_keys p.1 k p.2).2
    have hcoords := (farm_grew_coords_farms_keys p.1 k p.2).1
    rw [hkeys] at hfk
    rw [hcoords] at hval
    exact hmech.2.2.2 fk hfk hval.symm

theorem foldl_growStep_WFD (ks : List ℕ) (p : World × RNG)
    (h : WF p.1 ∧ FarmsDistinct p.1) :
    WF ((ks.foldl growStep p).1) ∧ FarmsDistinct ((ks.foldl growStep p).1) := by
  induction ks generalizing p with
  | nil => exact h
  | cons k ks ih =>
    rw [List.foldl_cons]
    exact ih _ (growStep_WFD p k h)

theorem harvestStep_WFD (p : World × RNG) (vk : ℕ)
    (h : WF p.1 ∧ FarmsDistinct p.1) :
    WF (harvestStep p vk).1 ∧ FarmsDistinct (harvestStep p vk).1 := by
  obtain ⟨hWF, hFD⟩ := h
  have hRw : (p.1.villager_harvested vk p.2).1 = p.1 :=
    villager_harvested_world p.1 vk p.2
  rcases villager_harvested_shape p.1 vk p.2 with hc | hc | ⟨fk, hc⟩
  · have hg : (harvestStep p vk).1 = p.1 := by
      simp [harvestStep, hc, hRw]
    rw [hg]
    exact ⟨hWF, hFD⟩
  · rcases villager_hungered_shape p.1 vk with hd | hd
    · have hg : (harvestStep p vk).1 = (p.1.villager_hungered vk).1 := by
        simp [harvestStep, hc, hRw, hd]
      rw [hg]
      exact ⟨WF_villager_hungered _ _ hWF, FD_villager_hungered _ _ hFD⟩
    · have hg : (harvestStep p vk).1 =
          (p.1.villager_hungered vk).1.villager_died vk := by
        simp [harvestStep, hc, hRw, hd]
      rw [hg]
      have hWF2 := WF_villager_hungered p.1 vk hWF
      have hFD2 := FD_villager_hungered p.1 vk hFD
      exact ⟨WF_villager_died _ _ hWF2, FD_villager_died _ _ hWF2 hFD2⟩
  · have hg : (harvestStep p vk).1 = (p.1.villager_ate vk).farm_harvested fk := by
      simp [harvestStep, hc, hRw]
    rw [hg]
    have hWF2 := WF_villager_ate p.1 vk hWF
    have hFD2 := FD_villager_ate p.1 vk hFD
    exact ⟨WF_farm_harvested _ _ hWF2, FD_farm_harvested _ _ hFD2⟩

theorem foldl_harvestStep_WFD (ks : List ℕ) (p : World × RNG)
    (h : WF p.1 ∧ FarmsDistinct p.1) :
    WF ((ks.foldl harvestStep p).1) ∧
      FarmsDistinct ((ks.foldl harvestStep p).1) := by
  induction ks generalizing p with
  | nil => exact h
  | cons k ks ih =>
    rw [List.foldl_cons]
    exact ih _ (harvestStep_WFD p k h)

theorem foldl_moveApply_WFD (evs : List WorldEvent) (w : World)
    (hsh : ∀ e ∈ evs, ∃ k d, e = WorldEvent.VillagerMoved k d ∧
      k ∈ w.villagers.keys)
    (h : WF w ∧ FarmsDistinct w) :
    WF (evs.foldl moveApply w) ∧ FarmsDistinct (evs.foldl moveApply w) := by
  induction evs generalizing w with
  | nil => exact h
  | cons e evs ih =>
    rw [List.foldl_cons]
    obtain ⟨k, d, rfl, hk⟩ := hsh _ (List.mem_cons_self _ _)
    obtain ⟨-, -, -, -, -, -, -, hdis⟩ := h.1
    have hWFm : WF (moveApply w (WorldEvent.VillagerMoved k d)) := by
      show WF (w.villager_moved k d)
      exact WF_villager_moved w k d h.1
    have hFDm : FarmsDistinct (moveApply w (WorldEvent.VillagerMoved k d)) := by
      show (farmCoords (w.villager_moved k d)).Nodup
      rw [farmCoords_villager_moved w k d (fun hkf => hdis k hkf hk)]
      exact h.2
    apply ih
    · intro e2 he2
      obtain ⟨k2, d2, he3, hk2⟩ := hsh e2 (List.mem_cons_of_mem _ he2)
      refine ⟨k2, d2, he3, ?_⟩
      rw [(moveApply_fields w _).2.1]
      exact hk2
    · exact ⟨hWFm, hFDm⟩

theorem gravesPhase_WFD (w : World) (h : WF w ∧ FarmsDistinct w) :
    WF (gravesPhase w) ∧ FarmsDistinct (gravesPhase w) := by
  refine ⟨WF_graves_cleared w h.1, ?_⟩
  show (farmCoords w.graves_cleared).Nodup
  rw [farmCoords_eq_of w.graves_cleared w rfl rfl]
  exact h.2

theorem growthPhase_WFD (w : World) (g : RNG) (h : WF w ∧ FarmsDistinct w) :
    WF (growthPhase w g).1 ∧ FarmsDistinct (growthPhase w g).1 := by
  unfold growthPhase
  exact foldl_growStep_WFD _ _ h

theorem harvestPhase_WFD (w : World) (g : RNG) (h : WF w ∧ FarmsDistinct w) :
    WF (harvestPhase w g).1 ∧ FarmsDistinct (harvestPhase w g).1 := by
  unfold harvestPhase
  exact foldl_harvestStep_WFD _ _ h

theorem movePhase_WFD (w : World) (g : RNG) (h : WF w ∧ FarmsDistinct w) :
    WF (movePhase w g).1 ∧ FarmsDistinct (movePhase w g).1 := by
  unfold movePhase
  dsimp only
  apply foldl_moveApply_WFD
  · intro e he
    exact villagers_moved_shape w g e (List.mem_reverse.mp he)
  · exact h

theorem cascade_WFD (w : World) (g : RNG) (h : WF w ∧ FarmsDistinct w) :
    WF (cascade w g).1 ∧ FarmsDistinct (cascade w g).1 := by
  unfold cascade
  dsimp only
  exact movePhase_WFD _ _ (harvestPhase_WFD _ _ (growthPhase_WFD _ _
    (gravesPhase_WFD w h)))

theorem tick_WFD (w : World) (g : RNG) (he : w.events = [])
    (h : WF w ∧ FarmsDistinct w) :
    WF (World.tick w g).1 ∧ FarmsDistinct (World.tick w g).1 := by
  by_cases hb : (w.ticks + 2) % 20 = 0
  · rw [tick_boundary w g he hb]
    apply cascade_WFD
    exact h
  · rw [tick_nonboundary w g hb]
    exact h

/-- C7: a completed growth event only places the new farm (via `FarmAdded`)
on an orthogonal neighbor cell of the growing farm that stays inside the
interior playfield (resp. the grid) whenever the farm is there, and that is
not occupied by any existing farm; consequently, starting from the
well-formed, duplicate-free initial world, farm-coordinate uniqueness is an
invariant of `tick`, so it holds at quiescence of every cascade. -/
theorem c7_growth_uniqueness :
    (∀ (w : World) (k : ℕ) (g : RNG) (c : Coords),
      (w.farm_grew k g).2.1 = [WorldEvent.FarmAdded c] →
        adjacentCell (w.coords.getD k (0, 0)) c ∧
        (interior (w.coords.getD k (0, 0)) → interior c) ∧
        (in_grid_spec (w.coords.getD k (0, 0)) → in_grid_spec c) ∧
        ∀ fk ∈ w.farms.keys, c ≠ w.coords.getD fk (0, 0)) ∧
    (WF World.new ∧ FarmsDistinct World.new) ∧
    (∀ (w : World) (g : RNG), w.events = [] → WF w → FarmsDistinct w →
      WF (World.tick w g).1 ∧ FarmsDistinct (World.tick w g).1 ∧
        (World.tick w g).1.events = []) := by
  refine ⟨farm_grew_mechanism, ⟨by decide, by decide⟩, ?_⟩
  intro w g he h1 h2
  obtain ⟨hw, hf⟩ := tick_WFD w g he ⟨h1, h2⟩
  exact ⟨hw, hf, tick_events_nil w g he⟩

/-- Witness for C7 at concrete inputs: on the initial world at tick 20,
`FarmGrew` of the farm at `(5,4)` under the all-zero draw stream enqueues
`FarmAdded (5,3)` — an adjacent, unoccupied interior cell — and one `tick`
from `World::new` keeps the farm coordinates distinct. -/
theorem c7_growth_uniqueness_witness :
    (({ World.new with ticks := 20 } : World).farm_grew 1 zeros).2.1 =
        [WorldEvent.FarmAdded (5, 3)] ∧
      adjacentCell
        (SMap.getD ({ World.new with ticks := 20 } : World).coords 1 (0, 0))
        (5, 3) ∧
      FarmsDistinct (World.tick World.new zeros).1 :=
  ⟨by decide,
   (c7_growth_uniqueness.1 { World.new with ticks := 20 } 1 zeros (5, 3)
      (by decide)).1,
   (c7_growth_uniqueness.2.2 World.new zeros (by decide) (by decide)
      (by decide)).2.1⟩

/-! ## Claim C10: the need-to-eat gate and its permanence -/

/-- `villager_harvested` is a no-op (no mutation, no events) whenever
`need_to_eat` is false. -/
theorem villager_harvested_noop (w : World) (vk : ℕ) (g : RNG)
    (hs : ¬(w.satiation.getD vk 0 < 5 ∧
      w.ticks - (w.villagers.getD vk World.dummyVillager).last_ate < 40)) :
    w.villager_harvested vk g = (w, [], g) := by
  simp only [World.villager_harvested]
  split_ifs with hb hf
  · exact absurd (by simpa using hb) hs
  · exact absurd (by simpa using hb) hs
  · rfl

theorem villager_ate_get?_ne (w : World) (vk k : ℕ) (h : k ≠ vk) :
    SMap.get? (w.villager_ate vk).villagers k = SMap.get? w.villagers k ∧
    SMap.get? (w.villager_ate vk).satiation k = SMap.get? w.satiation k := by
  constructor
  · show SMap.get?
      (w.villagers.mapAt vk (fun v => { v with last_ate := w.ticks })) k = _
    rw [SMap.get?_mapAt, if_neg h]
  · show SMap.get? (w.satiation.mapAt vk (fun s => s + 1)) k = _
    rw [SMap.get?_mapAt, if_neg h]

theorem villager_hungered_get?_ne (w : World) (vk k : ℕ) (h : k ≠ vk) :
    SMap.get? (w.villager_hungered vk).1.villagers k = SMap.get? w.villagers k ∧
    SMap.get? (w.villager_hungered vk).1.satiation k = SMap.get? w.satiation k := by
  unfold World.villager_hungered
  split_ifs
  · dsimp only
    constructor
    · rw [SMap.get?_mapAt, if_neg h]
    · rw [SMap.get?_mapAt, if_neg h]
  · exact ⟨rfl, rfl⟩

theorem villager_died_get?_ne (w : World) (vk k : ℕ) (h : k ≠ vk) :
    SMap.get? (w.villager_died vk).villagers k = SMap.get? w.villagers k := by
  show SMap.get? (w.villagers.remove vk) k = _
  rw [SMap.get?_remove, if_neg h]

/-- One harvest step leaves a safe villager's record, satiation entry and
the tick counter untouched. -/
theorem harvestStep_safe_pres (p : World × RNG) (vk k : ℕ)
    (hsafe : SafeVillager p.1 k) :
    SMap.get? (harvestStep p vk).1.villagers k = SMap.get? p.1.villagers k ∧
    SMap.get? (harvestStep p vk).1.satiation k = SMap.get? p.1.satiation k ∧
    (harvestStep p vk).1.ticks = p.1.ticks := by
  have hRw : (p.1.villager_harvested vk p.2).1 = p.1 :=
    villager_harvested_world p.1 vk p.2
  by_cases hvk : vk = k
  · subst hvk
    have hnoop := villager_harvested_noop p.1 vk p.2
      (by unfold SafeVillager at hsafe; omega)
    have hg : (harvestStep p vk).1 = p.1 := by
      simp [harvestStep, hnoop]
    rw [hg]
    exact ⟨rfl, rfl, rfl⟩
  · have hk : k ≠ vk := fun he => hvk he.symm
    rcases villager_harvested_shape p.1 vk p.2 with hc | hc | ⟨fk, hc⟩
    · have hg : (harvestStep p vk).1 = p.1 := by
        simp [harvestStep, hc, hRw]
      rw [hg]
      exact ⟨rfl, rfl, rfl⟩
    · rcases villager_hungered_shape p.1 vk with hd | hd
      · have hg : (harvestStep p vk).1 = (p.1.villager_hungered vk).1 := by
          simp [harvestStep, hc, hRw, hd]
        rw [hg]
        obtain ⟨e1, e2⟩ := villager_hungered_get?_ne p.1 vk k hk
        exact ⟨e1, e2, (villager_hungered_fields p.1 vk).2.1⟩
      · have hg : (harvestStep p vk).1 =
            (p.1.villager_hungered vk).1.villager_died vk := by
          simp [harvestStep, hc, hRw, hd]
        rw [hg]
        obtain ⟨e1, e2⟩ := villager_hungered_get?_ne p.1 vk k hk
        refine ⟨?_, ?_, ?_⟩
        · rw [villager_died_get?_ne _ vk k hk]
          exact e1
        · show SMap.get? (p.1.villager_hungered vk).1.satiation k = _
          exact e2
        · show (p.1.villager_hungered vk).1.ticks = _
          exact (villager_hungered_fields p.1 vk).2.1
    · have hg : (harvestStep p vk).1 = (p.1.villager_ate vk).farm_harvested fk := by
        simp [harvestStep, hc, hRw]
      rw [hg]
      obtain ⟨e1, e2⟩ := villager_ate_get?_ne p.1 vk k hk
      exact ⟨e1, e2, rfl⟩

theorem foldl_harvestStep_safe (ks : List ℕ) (p : World × RNG) (k : ℕ)
    (hsafe : SafeVillager p.1 k) :
    SMap.get? ((ks.foldl harvestStep p).1).villagers k =
        SMap.get? p.1.villagers k ∧
    SMap.get? ((ks.foldl harvestStep p).1).satiation k =
        SMap.get? p.1.satiation k ∧
    ((ks.foldl harvestStep p).1).ticks = p.1.ticks := by
  induction ks generalizing p with
  | nil => exact ⟨rfl, rfl, rfl⟩
  | cons vk ks ih =>
    rw [List.foldl_cons]
    obtain ⟨h1, h2, h3⟩ := harvestStep_safe_pres p vk k hsafe
    have hsafe2 : SafeVillager (harvestStep p vk).1 k := by
      unfold SafeVillager at hsafe ⊢
      unfold SMap.getD at hsafe ⊢
      rw [h1, h2, h3]
      exact hsafe
    obtain ⟨i1, i2, i3⟩ := ih (harvestStep p vk) hsafe2
    exact ⟨i1.trans h1, i2.trans h2, i3.trans h3⟩

theorem growthPhase_fields (w : World) (g : RNG) :
    (growthPhase w g).1.villagers = w.villagers ∧
    (growthPhase w g).1.satiation = w.satiation ∧
    (growthPhase w g).1.ticks = w.ticks := by
  unfold growthPhase
  obtain ⟨-, h2, h3, h4, -⟩ := foldl_growStep_fields _ (w, g)
  exact ⟨h2, h3, h4⟩

theorem harvestPhase_safe (w : World) (g : RNG) (k : ℕ)
    (hsafe : SafeVillager w k) :
    SMap.get? (harvestPhase w g).1.villagers k = SMap.get? w.villagers k ∧
    SMap.get? (harvestPhase w g).1.satiation k = SMap.get? w.satiation k ∧
    (harvestPhase w g).1.ticks = w.ticks := by
  unfold harvestPhase
  exact foldl_harvestStep_safe _ (w, g) k hsafe

theorem movePhase_fields (w : World) (g : RNG) :
    (movePhase w g).1.villagers = w.villagers ∧
    (movePhase w g).1.satiation = w.satiation ∧
    (movePhase w g).1.ticks = w.ticks := by
  unfold movePhase
  dsimp only
  obtain ⟨-, h2, h3, h4, -, -⟩ := foldl_moveApply_fields _ w
  exact ⟨h2, h3, h4⟩

theorem cascade_safe_pres (w : World) (g : RNG) (k : ℕ)
    (hsafe : SafeVillager w k) :
    SMap.get? (cascade w g).1.villagers k = SMap.get? w.villagers k ∧
    SMap.get? (cascade w g).1.satiation k = SMap.get? w.satiation k ∧
    (cascade w g).1.ticks = w.ticks := by
  obtain ⟨G2, G3, G4⟩ := growthPhase_fields (gravesPhase w) g
  have hsafeG : SafeVillager (growthPhase (gravesPhase w) g).1 k := by
    unfold SafeVillager at hsafe ⊢
    rw [G2, G3, G4]
    exact hsafe
  obtain ⟨H1, H2, H3⟩ := harvestPhase_safe (growthPhase (gravesPhase w) g).1
    (growthPhase (gravesPhase w) g).2 k hsafeG
  obtain ⟨M1, M2, M3⟩ := movePhase_fields
    (harvestPhase (growthPhase (gravesPhase w) g).1
      (growthPhase (gravesPhase w) g).2).1
    (harvestPhase (growthPhase (gravesPhase w) g).1
      (growthPhase (gravesPhase w) g).2).2
  unfold cascade
  dsimp only
  refine ⟨?_, ?_, ?_⟩
  · rw [M1, H1, G2]
    rfl
  · rw [M2, H2, G3]
    rfl
  · rw [M3, H3, G4]
    rfl

theorem tick_safe_pres (w : World) (g : RNG) (k : ℕ) (he : w.events = [])
    (hsafe : SafeVillager w k) :
    SMap.get? (World.tick w g).1.villagers k = SMap.get? w.villagers k ∧
    SMap.get? (World.tick w g).1.satiation k = SMap.get? w.satiation k ∧
    (World.tick w g).1.ticks = w.ticks + 1 := by
  by_cases hb : (w.ticks + 2) % 20 = 0
  · rw [tick_boundary w g he hb]
    have hsafe1 : SafeVillager { w with ticks := w.ticks + 1 } k := by
      unfold SafeVillager at hsafe ⊢
      dsimp only
      omega
    obtain ⟨h1, h2, h3⟩ := cascade_safe_pres { w with ticks := w.ticks + 1 } g k
      hsafe1
    exact ⟨h1, h2, h3⟩
  · rw [tick_nonboundary w g hb]
    exact ⟨rfl, rfl, rfl⟩

/-- A safe villager's record and satiation entry survive any number of
ticks unchanged, and the villager stays safe. -/
theorem tickN_safe_pres (n : ℕ) (w : World) (g : RNG) (k : ℕ)
    (he : w.events = []) (hsafe : SafeVillager w k) :
    SMap.get? (tickN n w g).1.villagers k = SMap.get? w.villagers k ∧
    SMap.get? (tickN n w g).1.satiation k = SMap.get? w.satiation k ∧
    SafeVillager (tickN n w g).1 k := by
  induction n generalizing w g with
  | zero => exact ⟨rfl, rfl, hsafe⟩
  | succ n ih =>
    obtain ⟨h1, h2, h3⟩ := tick_safe_pres w g k he hsafe
    have hsafe2 : SafeVillager (World.tick w g).1 k := by
      unfold SafeVillager at hsafe ⊢
      unfold SMap.getD at hsafe ⊢
      rw [h1, h2, h3]
      omega
    have he2 : (World.tick w g).1.events = [] := tick_events_nil w g he
    obtain ⟨i1, i2, i3⟩ := ih (World.tick w g).1 (World.tick w g).2 he2 hsafe2
    exact ⟨i1.trans h1, i2.trans h2, i3⟩

/-- `VillagerHungered` is only ever produced by `VillagerHarvested` of the
same villager, and only when `need_to_eat` holds and no farm exists. -/
theorem hungered_provenance (w : World) (e : WorldEvent) (g : RNG) (k : ℕ)
    (h : WorldEvent.VillagerHungered k ∈ (World.handle w e g).2.1) :
    e = WorldEvent.VillagerHarvested k ∧
    w.satiation.getD k 0 < 5 ∧
    w.ticks - (w.villagers.getD k World.dummyVillager).last_ate < 40 ∧
    w.farms.values.length = 0 := by
  cases e with
  | VillagerMoved k2 d => exact absurd h (List.not_mem_nil _)
  | VillagerAte k2 => exact absurd h (List.not_mem_nil _)
  | VillagerHungered k2 =>
    have h2 : WorldEvent.VillagerHungered k ∈ (w.villager_hungered k2).2 := h
    rcases villager_hungered_shape w k2 with hd | hd <;> rw [hd] at h2
    · exact absurd h2 (List.not_mem_nil _)
    · simp at h2
  | FarmGrew k2 =>
    have h2 : WorldEvent.VillagerHungered k ∈ (w.farm_grew k2 g).2.1 := h
    rcases farm_grew_shape w k2 g with hd | ⟨c, hd⟩ <;> rw [hd] at h2
    · exact absurd h2 (List.not_mem_nil _)
    · simp at h2
  | FarmHarvested k2 => exact absurd h (List.not_mem_nil _)
  | VillagerDied k2 => exact absurd h (List.not_mem_nil _)
  | FarmAdded c => exact absurd h (List.not_mem_nil _)
  | VillagerHarvested k2 =>
    have h2 : WorldEvent.VillagerHungered k ∈ (w.villager_harvested k2 g).2.1 := h
    simp only [World.villager_harvested] at h2
    split_ifs at h2 with hb hf
    · simp at h2
    · dsimp only at h2
      simp only [List.mem_singleton] at h2
      injection h2 with hk
      subst hk
      have hbb : w.satiation.getD k 0 < 5 ∧
          w.ticks - (w.villagers.getD k World.dummyVillager).last_ate < 40 := by
        simpa using hb
      have hff : w.farms.values.length = 0 := by
        have hf2 := hf
        simp only [decide_eq_true_eq] at hf2
        omega
      exact ⟨rfl, hbb.1, hbb.2, hff⟩
    · simp at h2
  | GravesCleared => exact absurd h (List.not_mem_nil _)
  | FarmsCultivated =>
    have h2 : WorldEvent.VillagerHungered k ∈ w.farms_cultivated := h
    unfold World.farms_cultivated at h2
    obtain ⟨f, -, hf⟩ := List.mem_map.mp h2
    exact absurd hf (by simp)
  | VillagersFarmed =>
    have h2 : WorldEvent.VillagerHungered k ∈ w.villagers_farmed := h
    unfold World.villagers_farmed at h2
    obtain ⟨k3, -, hf⟩ := List.mem_map.mp h2
    exact absurd hf (by simp)
  | VillagersMoved =>
    have h2 : WorldEvent.VillagerHungered k ∈ (w.villagers_moved g).1 := h
    obtain ⟨k3, d3, hf, -⟩ := villagers_moved_shape w g _ h2
    exact absurd hf (by simp)

/-- `VillagerDied` is only ever produced by `VillagerHungered` of the same
villager, and only when its satiation is already zero. -/
theorem died_provenance (w : World) (e : WorldEvent) (g : RNG) (k : ℕ)
    (h : WorldEvent.VillagerDied k ∈ (World.handle w e g).2.1) :
    e = WorldEvent.VillagerHungered k ∧ w.satiation.getD k 0 = 0 := by
  cases e with
  | VillagerMoved k2 d => exact absurd h (List.not_mem_nil _)
  | VillagerAte k2 => exact absurd h (List.not_mem_nil _)
  | VillagerHungered k2 =>
    have h2 : WorldEvent.VillagerDied k ∈ (w.villager_hungered k2).2 := h
    unfold World.villager_hungered at h2
    split_ifs at h2 with hpos
    · simp at h2
    · dsimp only at h2
      simp only [List.mem_singleton] at h2
      injection h2 with hk
      subst hk
      exact ⟨rfl, by omega⟩
  | FarmGrew k2 =>
    have h2 : WorldEvent.VillagerDied k ∈ (w.farm_grew k2 g).2.1 := h
    rcases farm_grew_shape w k2 g with hd | ⟨c, hd⟩ <;> rw [hd] at h2
    · exact absurd h2 (List.not_mem_nil _)
    · simp at h2
  | FarmHarvested k2 => exact absurd h (List.not_mem_nil _)
  | VillagerDied k2 => exact absurd h (List.not_mem_nil _)
  | FarmAdded c => exact absurd h (List.not_mem_nil _)
  | VillagerHarvested k2 =>
    have h2 : WorldEvent.VillagerDied k ∈ (w.villager_harvested k2 g).2.1 := h
    rcases villager_harvested_shape w k2 g with hc | hc | ⟨fk, hc⟩ <;>
      rw [hc] at h2 <;> simp at h2
  | GravesCleared => exact absurd h (List.not_mem_nil _)
  | FarmsCultivated =>
    have h2 : WorldEvent.VillagerDied k ∈ w.farms_cultivated := h
    unfold World.farms_cultivated at h2
    obtain ⟨f, -, hf⟩ := List.mem_map.mp h2
    exact absurd hf (by simp)
  | VillagersFarmed =>
    have h2 : WorldEvent.VillagerDied k ∈ w.villagers_farmed := h
    unfold World.villagers_farmed at h2
    obtain ⟨k3, -, hf⟩ := List.mem_map.mp h2
    exact absurd hf (by simp)
  | VillagersMoved =>
    have h2 : WorldEvent.VillagerDied k ∈ (w.villagers_moved g).1 := h
    obtain ⟨k3, d3, hf, -⟩ := villagers_moved_shape w g _ h2
    exact absurd hf (by simp)

/-- C10: `VillagerHungered` is only enqueued by `VillagerHarvested` of the
same villager when `need_to_eat` holds and no farm exists, and
`VillagerDied` only by `VillagerHungered` at zero satiation; for a villager
with satiation at least 5 or at least 40 ticks since it last ate,
`villager_harvested` is a no-op, and through any number of ticks such a
villager keeps its exact record and satiation entry and stays in that
state: it can never hunger, lose satiation, or die. -/
theorem c10_need_gate :
    (∀ (w : World) (e : WorldEvent) (g : RNG) (k : ℕ),
      WorldEvent.VillagerHungered k ∈ (World.handle w e g).2.1 →
        e = WorldEvent.VillagerHarvested k ∧
        w.satiation.getD k 0 < 5 ∧
        w.ticks - (w.villagers.getD k World.dummyVillager).last_ate < 40 ∧
        w.farms.values.length = 0) ∧
    (∀ (w : World) (e : WorldEvent) (g : RNG) (k : ℕ),
      WorldEvent.VillagerDied k ∈ (World.handle w e g).2.1 →
        e = WorldEvent.VillagerHungered k ∧ w.satiation.getD k 0 = 0) ∧
    (∀ (w : World) (k : ℕ) (g : RNG), SafeVillager w k →
      w.villager_harvested k g = (w, [], g)) ∧
    (∀ (n : ℕ) (w : World) (g : RNG) (k : ℕ),
      w.events = [] → SafeVillager w k →
        SMap.get? (tickN n w g).1.villagers k = SMap.get? w.villagers k ∧
        SMap.get? (tickN n w g).1.satiation k = SMap.get? w.satiation k ∧
        SafeVillager (tickN n w g).1 k) := by
  refine ⟨hungered_provenance, died_provenance, ?_, tickN_safe_pres⟩
  intro w k g hs
  exact villager_harvested_noop w k g (by unfold SafeVillager at hs; omega)

/-- Witness for C10 at concrete inputs: on the initial world with no farms,
`VillagerHarvested 0` satisfies the hungering conditions; a villager whose
satiation is raised to 5 is never acted on again, and its record survives
25 ticks (two cascades) unchanged. -/
theorem c10_need_gate_witness :
    (({ World.new with farms := [] } : World).satiation.getD 0 0 < 5 ∧
      ({ World.new with farms := [] } : World).farms.values.length = 0) ∧
    (({ World.new with satiation := [(0, 5)] } : World).villager_harvested 0
        zeros =
      ({ World.new with satiation := [(0, 5)] }, [], zeros)) ∧
    SMap.get?
        (tickN 25 { World.new with satiation := [(0, 5)] } zeros).1.villagers 0 =
      SMap.get? ({ World.new with satiation := [(0, 5)] } : World).villagers 0 :=
  ⟨⟨(c10_need_gate.1 { World.new with farms := [] }
        (WorldEvent.VillagerHarvested 0) zeros 0 (by decide)).2.1,
    (c10_need_gate.1 { World.new with farms := [] }
        (WorldEvent.VillagerHarvested 0) zeros 0 (by decide)).2.2.2⟩,
   c10_need_gate.2.2.1 { World.new with satiation := [(0, 5)] } 0 zeros
     (by decide),
   (c10_need_gate.2.2.2 25 { World.new with satiation := [(0, 5)] } zeros 0
      (by decide) (by decide)).1⟩

end Bitter
